import Mathlib

/-!
Verification of the SyncToNotion media pipeline.

This file gives a shallow embedding, in Lean 4, of the parts of the
repository that the frozen claims are about:

* the batch/continuation scheduler (`BatchProcessingManager` in
  `batchProcessor.ts`): `createTask`, `getCurrentBatchItems`,
  `processBatchItems`, `removeProcessedItems`, `processNextBatch`;
* the storage router (`media.ts`): `processMediaFile`,
  `processMediaFileWithParseData`, together with the size routing of
  `ImageHostService.uploadFile` (`imageHost.ts`);
* the chunk splitting performed by `ImageHostService.uploadFileWithChunking`;
* the CDN proxy addressing scheme (`proxyUrl.ts`): `detectPlatform`,
  `generateFileName`, `generateSignature`, `createProxyUrl`,
  `parseProxyUrl`, `validateProxyUrl`, `shouldUseProxy`, and the media
  proxy worker's `parseProxyRequest`.

Network I/O is modelled by explicit parameters: the scheduler takes the
per-item processing outcome as a function, the router takes a map from
URLs to origin descriptors (size, reachability, content-length
availability) and records the network requests it performs as an event
trace.  JavaScript-specific semantics that the claims depend on are
modelled explicitly: 32-bit signed integer wrap-around in the signature
hash, truthiness of empty strings, `btoa`/`atob` base64 with forgiving
decoding, `JSON.stringify` field order, and `new URL(...).pathname`.
-/

/-! ## Generic helpers -/

/-- JavaScript `a || d` for an optional numeric argument: `undefined` and `0`
are falsy, so both fall back to the default. -/
def jsOrDefault (a : Option Nat) (d : Nat) : Nat :=
  match a with
  | none => d
  | some n => if n = 0 then d else n

/-- Ceiling division, as computed by `Math.ceil(a / b)` on naturals. -/
def jsCeilDiv (a b : Nat) : Nat := (a + b - 1) / b

/-! ## Batch / continuation scheduler (`batchProcessor.ts`)

`BatchProcessingManager` keeps one `ProcessingTask` record per task id in
Workers KV.  The KV store, task ids, timestamps and the 100 ms delay do not
affect the scheduling logic and are not modelled; a task is the record
itself and `processNextBatch` is a function from a task to the returned
`BatchProcessResult` together with the updated task.  The per-item
processing call (`processMediaFile(item.url, null, key, {isLivePhoto:
item.type === 'video', timeout: 45000})`) is abstracted as a parameter
`proc : MediaType → String → Except String String`, where `.ok u` is the
processed URL resolved by the promise and `.error m` is the thrown error's
message. -/

/-- Media item kinds handled by the scheduler (`MediaItem.type`). -/
inductive MediaType where
  | video
  | image
deriving DecidableEq, Repr

/-- One entry of a scheduler batch (`MediaItem` in `batchProcessor.ts`). -/
structure MediaItem where
  type : MediaType
  url : String
  index : Nat
deriving DecidableEq, Repr

/-- Task status (`ProcessingTask.status`).  The source's string literal
`'partial'` is rendered as `partialResult`. -/
inductive TaskStatus where
  | processing
  | completed
  | failed
  | partialResult
deriving DecidableEq, Repr

/-- Video/image URL list pair, the shape of `processedResults` and
`pendingItems` on a task. -/
structure MediaLists where
  videos : List String
  images : List String
deriving DecidableEq, Repr

/-- Resumable scheduling state (`ProcessingTask`), without the fields that
carry no scheduling content (taskId, originalData, timestamps, notionInfo). -/
structure ProcessingTask where
  totalBatches : Nat
  completedBatches : Nat
  currentBatch : Nat
  batchSize : Nat
  processedResults : MediaLists
  pendingItems : MediaLists
  status : TaskStatus
deriving DecidableEq, Repr

/-- Batch counters returned in `BatchProcessResult.batchInfo`. -/
structure BatchInfo where
  current_batch : Nat
  total_batches : Nat
  completed_batches : Nat
  batch_size : Nat
deriving DecidableEq, Repr

/-- Per-batch outcome summary (`BatchProcessResult.details`). -/
structure BatchDetails where
  success_count : Nat
  failed_count : Nat
  errors : List String
deriving DecidableEq, Repr

/-- Value returned by `processNextBatch` (`BatchProcessResult`). -/
structure BatchProcessResult where
  processedItems : MediaLists
  isComplete : Bool
  batchInfo : BatchInfo
  details : Option BatchDetails
deriving DecidableEq, Repr

/-- Default video batch size (`DEFAULT_VIDEO_BATCH_SIZE = 12`). -/
def DEFAULT_VIDEO_BATCH_SIZE : Nat := 12

/-- Default image batch size (`DEFAULT_IMAGE_BATCH_SIZE = 15`). -/
def DEFAULT_IMAGE_BATCH_SIZE : Nat := 15

/-- Translation of `BatchProcessingManager.createTask`.  The video and image
batch sizes are `customBatchSize || DEFAULT` (JavaScript `||`, so a supplied
`0` falls back to the default); `totalBatches` is the larger of the two
per-kind ceilings and `batchSize` stores the video batch size. -/
def createTask (videos images : List String) (customBatchSize : Option Nat) :
    ProcessingTask :=
  let videoBatchSize := jsOrDefault customBatchSize DEFAULT_VIDEO_BATCH_SIZE
  let imageBatchSize := jsOrDefault customBatchSize DEFAULT_IMAGE_BATCH_SIZE
  let videoBatches := if videos.length > 0 then jsCeilDiv videos.length videoBatchSize else 0
  let imageBatches := if images.length > 0 then jsCeilDiv images.length imageBatchSize else 0
  { totalBatches := max videoBatches imageBatches
    completedBatches := 0
    currentBatch := 1
    batchSize := videoBatchSize
    processedResults := { videos := [], images := [] }
    pendingItems := { videos := videos, images := images }
    status := .processing }

/-- Translation of `BatchProcessingManager.getCurrentBatchItems`: take up to
`DEFAULT_VIDEO_BATCH_SIZE` pending videos from the front of the pending list
(note: the stored `task.batchSize` is not consulted), then fill the remaining
space of the batch with pending images.  Item indices restart at `0` for each
kind, exactly as the two `for` loops do. -/
def getCurrentBatchItems (task : ProcessingTask) : List MediaItem :=
  let videosPerBatch := DEFAULT_VIDEO_BATCH_SIZE
  let videosToProcess := min videosPerBatch task.pendingItems.videos.length
  let vids := (task.pendingItems.videos.take videosToProcess).mapIdx
    (fun i u => { type := .video, url := u, index := i })
  let remainingSpace := videosPerBatch - vids.length
  let imgs :=
    if remainingSpace > 0 then
      let imagesToProcess := min remainingSpace task.pendingItems.images.length
      (task.pendingItems.images.take imagesToProcess).mapIdx
        (fun i u => { type := .image, url := u, index := i })
    else []
  vids ++ imgs

/-- Shape of one element of the `results` array built inside
`processBatchItems`. -/
structure ItemResult where
  itype : MediaType
  originalUrl : String
  processedUrl : String
  success : Bool
  error : Option String
deriving DecidableEq, Repr

/-- Error message recorded for a failed item:
`item.type + item.index + '处理失败: ' + message`. -/
def batchErrorMessage (it : MediaItem) (message : String) : String :=
  (match it.type with | .video => "video" | .image => "image") ++
    toString it.index ++ "处理失败: " ++ message

/-- Outcome of one item inside `processBatchItems`: on success the processed
URL is returned; on a thrown error the item's original URL is used as the
processed URL (`processedUrl: item.url // 失败时返回原始URL`) and the error
message is recorded. -/
def processItem (proc : MediaType → String → Except String String)
    (it : MediaItem) : ItemResult :=
  match proc it.type it.url with
  | .ok u =>
      { itype := it.type, originalUrl := it.url, processedUrl := u
        success := true, error := none }
  | .error m =>
      { itype := it.type, originalUrl := it.url, processedUrl := it.url
        success := false, error := some (batchErrorMessage it m) }

/-- Translation of `BatchProcessingManager.processBatchItems`.  Every result
— successful or failed — is pushed onto `processedVideos`/`processedImages`
according to its kind; counts and error messages summarize the batch.  (In
the source the error list is filled in promise-completion order; membership
and counts, which are all the claims use, are order-independent.) -/
def processBatchItems (proc : MediaType → String → Except String String)
    (items : List MediaItem) :
    MediaLists × BatchDetails :=
  let results := items.map (processItem proc)
  ({ videos := (results.filter (fun r => r.itype = .video)).map (·.processedUrl)
     images := (results.filter (fun r => r.itype = .image)).map (·.processedUrl) },
   { success_count := (results.filter (·.success)).length
     failed_count := (results.filter (fun r => !r.success)).length
     errors := results.filterMap (·.error) })

/-- Translation of `BatchProcessingManager.removeProcessedItems`: drop from
each pending list every URL that occurs among this batch's items of that
kind (a `Set` of URLs in the source). -/
def removeProcessedItems (task : ProcessingTask)
    (processedItems : List MediaItem) : ProcessingTask :=
  let processedVideoUrls :=
    (processedItems.filter (fun it => it.type = .video)).map (·.url)
  let processedImageUrls :=
    (processedItems.filter (fun it => it.type = .image)).map (·.url)
  { task with
    pendingItems :=
      { videos :=
          if processedVideoUrls.isEmpty then task.pendingItems.videos
          else task.pendingItems.videos.filter (fun u => !processedVideoUrls.contains u)
        images :=
          if processedImageUrls.isEmpty then task.pendingItems.images
          else task.pendingItems.images.filter (fun u => !processedImageUrls.contains u) } }

/-- Result returned by the two early-return branches of `processNextBatch`
(status already `completed`, or an empty current batch). -/
def completedBatchResult (task : ProcessingTask) : BatchProcessResult :=
  { processedItems := { videos := [], images := [] }
    isComplete := true
    batchInfo :=
      { current_batch := task.completedBatches
        total_batches := task.totalBatches
        completed_batches := task.completedBatches
        batch_size := task.batchSize }
    details := none }

/-- Translation of `BatchProcessingManager.processNextBatch` on a present
(non-expired) task. -/
def processNextBatch (proc : MediaType → String → Except String String)
    (task : ProcessingTask) : BatchProcessResult × ProcessingTask :=
  if task.status = .completed then
    (completedBatchResult task, task)
  else
    let currentBatchItems := getCurrentBatchItems task
    if currentBatchItems.length = 0 then
      (completedBatchResult task, { task with status := .completed })
    else
      let pr := processBatchItems proc currentBatchItems
      let t1 := { task with
        completedBatches := task.completedBatches + 1
        currentBatch := task.currentBatch + 1
        processedResults :=
          { videos := task.processedResults.videos ++ pr.1.videos
            images := task.processedResults.images ++ pr.1.images } }
      let t2 := removeProcessedItems t1 currentBatchItems
      let isComplete :=
        t2.completedBatches ≥ t2.totalBatches ||
          (t2.pendingItems.videos.isEmpty && t2.pendingItems.images.isEmpty)
      let t3 := if isComplete then { t2 with status := .completed } else t2
      ({ processedItems := pr.1
         isComplete := isComplete
         batchInfo :=
           { current_batch := t3.currentBatch - 1
             total_batches := t3.totalBatches
             completed_batches := t3.completedBatches
             batch_size := currentBatchItems.length }
         details := some pr.2 },
       t3)

/-- Task state after `n` further `processNextBatch` calls. -/
def runBatches (proc : MediaType → String → Except String String) :
    Nat → ProcessingTask → ProcessingTask
  | 0, task => task
  | n + 1, task => runBatches proc n (processNextBatch proc task).2

/-- Pending URL list of a given kind on a task. -/
def pendingOf : MediaType → ProcessingTask → List String
  | .video, t => t.pendingItems.videos
  | .image, t => t.pendingItems.images

/-- Processed URL list of a given kind on a task. -/
def processedOf : MediaType → ProcessingTask → List String
  | .video, t => t.processedResults.videos
  | .image, t => t.processedResults.images

/-- Unpacking membership in `List.mapIdx`. -/
theorem exists_of_mem_mapIdx {α β : Type _} :
    ∀ (l : List α) (f : ℕ → α → β) (x : β),
      x ∈ l.mapIdx f → ∃ i a, a ∈ l ∧ x = f i a
  | [], _, _, h => by simp at h
  | a :: l, f, x, h => by
    rw [List.mapIdx_cons] at h
    rcases List.mem_cons.1 h with h | h
    · exact ⟨0, a, List.mem_cons_self _ _, h⟩
    · obtain ⟨i, b, hb, rfl⟩ := exists_of_mem_mapIdx l (fun i => f (i + 1)) x h
      exact ⟨i + 1, b, List.mem_cons_of_mem _ hb, rfl⟩

/-- Every item selected into the current batch is drawn from the pending
list of its kind. -/
theorem url_mem_pending_of_mem_batch {it : MediaItem} {task : ProcessingTask}
    (h : it ∈ getCurrentBatchItems task) : it.url ∈ pendingOf it.type task := by
  unfold getCurrentBatchItems at h
  rcases List.mem_append.1 h with h | h
  · obtain ⟨i, a, ha, rfl⟩ := exists_of_mem_mapIdx _ _ _ h
    simpa [pendingOf] using List.take_subset _ _ ha
  · split at h
    · obtain ⟨i, a, ha, rfl⟩ := exists_of_mem_mapIdx _ _ _ h
      simpa [pendingOf] using List.take_subset _ _ ha
    · simp at h

/-- One `processNextBatch` call never adds a URL to a pending list. -/
theorem pending_subset_advance (proc : MediaType → String → Except String String)
    (τ : MediaType) (task : ProcessingTask) :
    pendingOf τ (processNextBatch proc task).2 ⊆ pendingOf τ task := by
  simp only [processNextBatch]
  split
  · exact fun u h => h
  · split
    · cases τ <;> exact fun u h => h
    · simp only [removeProcessedItems]
      cases τ <;>
        simp only [pendingOf, apply_ite ProcessingTask.pendingItems, ite_self] <;>
        split <;>
        first
          | exact fun u h => h
          | exact fun u h => List.mem_of_mem_filter h

/-- After `removeProcessedItems`, no URL of a batch item survives in the
pending list of that item's kind. -/
theorem url_not_pending_after_remove {it : MediaItem} {items : List MediaItem}
    (t : ProcessingTask) (h : it ∈ items) :
    it.url ∉ pendingOf it.type (removeProcessedItems t items) := by
  have hmem : it.url ∈
      (items.filter (fun x => x.type = it.type)).map MediaItem.url :=
    List.mem_map_of_mem _ (List.mem_filter.2 ⟨h, by simp⟩)
  have hne : ((items.filter (fun x => x.type = it.type)).map MediaItem.url).isEmpty
      = false := by
    simpa [List.isEmpty_iff] using List.ne_nil_of_mem hmem
  cases htype : it.type <;>
    rw [htype] at hmem hne <;>
    simp only [removeProcessedItems, pendingOf] <;>
    rw [if_neg (by simp [hne])] <;>
    intro hc <;>
    exact absurd hmem (by simpa using (List.mem_filter.1 hc).2)

/-- A URL absent from a pending list stays absent under any number of
further `processNextBatch` calls. -/
theorem url_not_pending_runBatches (proc : MediaType → String → Except String String)
    {τ : MediaType} {u : String} :
    ∀ (n : Nat) {t : ProcessingTask}, u ∉ pendingOf τ t →
      u ∉ pendingOf τ (runBatches proc n t)
  | 0, _, h => h
  | n + 1, t, h =>
    url_not_pending_runBatches proc n
      (fun hc => h (pending_subset_advance proc τ t hc))

/-- On the main branch (task not completed, nonempty batch), the returned
`details` are exactly the summary built by `processBatchItems`. -/
theorem processNextBatch_main_details
    (proc : MediaType → String → Except String String) (task : ProcessingTask)
    (hstatus : ¬ task.status = .completed)
    (hne : ¬ (getCurrentBatchItems task).length = 0) :
    (processNextBatch proc task).1.details =
      some (processBatchItems proc (getCurrentBatchItems task)).2 := by
  simp only [processNextBatch, if_neg hstatus, if_neg hne]

/-- On the main branch, the updated task's `processedResults` are the old
ones extended by everything `processBatchItems` returned. -/
theorem processNextBatch_main_processed
    (proc : MediaType → String → Except String String) (task : ProcessingTask)
    (hstatus : ¬ task.status = .completed)
    (hne : ¬ (getCurrentBatchItems task).length = 0) :
    (processNextBatch proc task).2.processedResults =
      { videos := task.processedResults.videos ++
          (processBatchItems proc (getCurrentBatchItems task)).1.videos
        images := task.processedResults.images ++
          (processBatchItems proc (getCurrentBatchItems task)).1.images } := by
  simp only [processNextBatch, if_neg hstatus, if_neg hne]
  split <;> rfl

/-- On the main branch, the updated task's `pendingItems` are the old ones
with this batch's URLs removed. -/
theorem processNextBatch_main_pending
    (proc : MediaType → String → Except String String) (task : ProcessingTask)
    (hstatus : ¬ task.status = .completed)
    (hne : ¬ (getCurrentBatchItems task).length = 0) :
    (processNextBatch proc task).2.pendingItems =
      (removeProcessedItems task (getCurrentBatchItems task)).pendingItems := by
  simp only [processNextBatch, if_neg hstatus, if_neg hne]
  split <;> rfl

/-- A failed item's error message is recorded in the batch details. -/
theorem errorMessage_mem_processBatchItems
    (proc : MediaType → String → Except String String)
    {items : List MediaItem} {it : MediaItem} {m : String}
    (hmem : it ∈ items) (hfail : proc it.type it.url = .error m) :
    batchErrorMessage it m ∈ (processBatchItems proc items).2.errors := by
  simp only [processBatchItems]
  exact List.mem_filterMap.2
    ⟨processItem proc it, List.mem_map_of_mem _ hmem, by simp [processItem, hfail]⟩

/-- A failed item's original URL appears in the per-kind processed list
returned by `processBatchItems`. -/
theorem url_mem_processBatchItems
    (proc : MediaType → String → Except String String)
    {items : List MediaItem} {it : MediaItem} {m : String}
    (hmem : it ∈ items) (hfail : proc it.type it.url = .error m) :
    it.url ∈ (match it.type with
      | .video => (processBatchItems proc items).1.videos
      | .image => (processBatchItems proc items).1.images) := by
  have hres : processItem proc it ∈ items.map (processItem proc) :=
    List.mem_map_of_mem _ hmem
  have hurl : (processItem proc it).processedUrl = it.url := by
    simp [processItem, hfail]
  have hty : (processItem proc it).itype = it.type := by
    unfold processItem
    cases proc it.type it.url <;> rfl
  cases htype : it.type <;>
    simp only [processBatchItems] <;>
    rw [← hurl] <;>
    exact List.mem_map_of_mem _
      (List.mem_filter.2 ⟨hres, by simp [hty, htype]⟩)

/-- Tasks with identical `pendingItems` have identical per-kind pending
lists. -/
theorem pendingOf_congr {τ : MediaType} {t1 t2 : ProcessingTask}
    (h : t1.pendingItems = t2.pendingItems) : pendingOf τ t1 = pendingOf τ t2 := by
  cases τ <;> simp [pendingOf, h]

/-- C1 — amended.  For a batch item whose per-item processing throws, after
`processNextBatch`: its error message is in that batch's `details.errors`;
its ORIGINAL URL is pushed into the task's `processedResults` of its kind
(so the item is present there, not absent as the original claim stated);
its URL is removed from `pendingItems`; and no later `processNextBatch`
call ever selects an item of that kind with that URL again. -/
theorem C1_failed_item_recorded_not_retried
    (proc : MediaType → String → Except String String)
    (task : ProcessingTask) (it : MediaItem) (m : String)
    (hmem : it ∈ getCurrentBatchItems task)
    (hfail : proc it.type it.url = .error m)
    (hstatus : ¬ task.status = .completed) :
    (∃ d, (processNextBatch proc task).1.details = some d ∧
        batchErrorMessage it m ∈ d.errors) ∧
    it.url ∈ processedOf it.type (processNextBatch proc task).2 ∧
    it.url ∉ pendingOf it.type (processNextBatch proc task).2 ∧
    (∀ n j, ({ type := it.type, url := it.url, index := j } : MediaItem) ∉
        getCurrentBatchItems (runBatches proc n (processNextBatch proc task).2)) := by
  have hne : ¬ (getCurrentBatchItems task).length = 0 := by
    have := List.length_pos.2 (List.ne_nil_of_mem hmem)
    omega
  have hpend : it.url ∉ pendingOf it.type (processNextBatch proc task).2 := by
    rw [pendingOf_congr (processNextBatch_main_pending proc task hstatus hne)]
    exact url_not_pending_after_remove task hmem
  refine ⟨?_, ?_, hpend, ?_⟩
  · rw [processNextBatch_main_details proc task hstatus hne]
    exact ⟨_, rfl, errorMessage_mem_processBatchItems proc hmem hfail⟩
  · have h2 := url_mem_processBatchItems proc hmem hfail
    cases htype : it.type <;>
      rw [htype] at h2 <;>
      simp only [processedOf, processNextBatch_main_processed proc task hstatus hne] <;>
      exact List.mem_append_right _ h2
  · intro n j hin
    have h1 := url_mem_pending_of_mem_batch hin
    exact url_not_pending_runBatches proc n hpend h1

/-- Processing oracle that throws for every item. -/
def alwaysFailing : MediaType → String → Except String String :=
  fun _ _ => .error "boom"

/-- Processing oracle that succeeds for every item, returning a hosted URL. -/
def alwaysOk : MediaType → String → Except String String :=
  fun _ u => .ok ("https://img.example/" ++ u)

/-- Task holding a single pending video. -/
def singleVideoTask : ProcessingTask := createTask ["v0"] [] none

/-- The single batch item of `singleVideoTask`. -/
def failingItem : MediaItem := { type := .video, url := "v0", index := 0 }

/-- C1 — counterexample.  The claim asserts a failed item is ABSENT from
`processedResults.videos`; in fact `processBatchItems` returns the item's
original URL on failure and `processNextBatch` pushes it, so after one call
on a one-video task whose processing throws, `processedResults.videos`
contains exactly that original URL. -/
theorem C1_counterexample :
    alwaysFailing MediaType.video "v0" = .error "boom" ∧
    (processNextBatch alwaysFailing singleVideoTask).2.processedResults.videos
      = ["v0"] := by
  exact ⟨rfl, by decide⟩

/-- C1 — witness for the amended theorem at the concrete one-video task. -/
theorem C1_witness :
    failingItem ∈ getCurrentBatchItems singleVideoTask ∧
    alwaysFailing failingItem.type failingItem.url = .error "boom" ∧
    ¬ singleVideoTask.status = .completed ∧
    ((∃ d, (processNextBatch alwaysFailing singleVideoTask).1.details = some d ∧
        batchErrorMessage failingItem "boom" ∈ d.errors) ∧
      failingItem.url ∈
        processedOf failingItem.type (processNextBatch alwaysFailing singleVideoTask).2 ∧
      failingItem.url ∉
        pendingOf failingItem.type (processNextBatch alwaysFailing singleVideoTask).2 ∧
      (∀ n j, ({ type := failingItem.type, url := failingItem.url, index := j } : MediaItem) ∉
          getCurrentBatchItems
            (runBatches alwaysFailing n (processNextBatch alwaysFailing singleVideoTask).2))) :=
  ⟨by decide, rfl, by decide,
    C1_failed_item_recorded_not_retried alwaysFailing singleVideoTask failingItem "boom"
      (by decide) rfl (by decide)⟩

/-- Thirty distinct video URLs. -/
def thirtyVideoUrls : List String := (List.range 30).map (fun i => "video" ++ toString i)

/-- Task created from 30 videos, 0 images and custom batch size 8. -/
def thirtyVideoTask : ProcessingTask := createTask thirtyVideoUrls [] (some 8)

/-- C2 — counterexample.  The claim asserts the task reaches `completed`
after exactly 4 `processNextBatch` calls.  `createTask` does store
`totalBatches = 4` and `batchSize = 8`, but `getCurrentBatchItems` slices by
`DEFAULT_VIDEO_BATCH_SIZE = 12`, ignoring the stored batch size, so the
first batch already holds 12 items and the task is `completed` after only 3
calls. -/
theorem C2_counterexample :
    thirtyVideoTask.totalBatches = 4 ∧
    thirtyVideoTask.batchSize = 8 ∧
    (getCurrentBatchItems thirtyVideoTask).length = 12 ∧
    (runBatches alwaysOk 3 thirtyVideoTask).status = .completed := by
  decide

/-- C2 — amended.  A task created with 30 pending videos, 0 images and
custom batch size 8 stores `totalBatches = 4`, but each batch actually takes
12 videos (the default batch size), so the task is still `processing` after
2 calls and reaches `completed` after exactly 3 `processNextBatch` calls,
with 30 entries in `processedResults.videos` and 0 in `pendingItems.videos`
at completion. -/
theorem C2_completed_after_three_calls :
    (runBatches alwaysOk 2 thirtyVideoTask).status = .processing ∧
    (runBatches alwaysOk 3 thirtyVideoTask).status = .completed ∧
    (runBatches alwaysOk 3 thirtyVideoTask).processedResults.videos.length = 30 ∧
    (runBatches alwaysOk 3 thirtyVideoTask).pendingItems.videos.length = 0 := by
  decide

/-! ## Configuration constants (`config.ts`, `imageHost.ts`) -/

/-- CDN proxy worker base URL (`PROXY_CONFIG.WORKER_URL`). -/
def PROXY_WORKER_URL : String := "https://media-proxy.liuyiran.workers.dev"

/-- Proxy URL version segment (`PROXY_CONFIG.VERSION`). -/
def PROXY_VERSION : String := "v1"

/-- Proxy size threshold used by `shouldUseProxy`
(`PROXY_CONFIG.SIZE_THRESHOLD = 100 * 1024 * 1024`). -/
def PROXY_SIZE_THRESHOLD : Nat := 100 * 1024 * 1024

/-- Router size threshold (`MEDIA_PROCESSING_CONFIG.SIZE_LIMITS.PROXY_THRESHOLD
= 110 * 1024 * 1024`), the default `fileSizeThreshold` of the router
(`FILE_SIZE_THRESHOLD` in `media.ts`). -/
def FILE_SIZE_THRESHOLD : Nat := 110 * 1024 * 1024

/-- Chunked-upload switchover (`LARGE_FILE_THRESHOLD = 19 * 1024 * 1024` in
`imageHost.ts`): above this size `uploadFile` uses chunked upload. -/
def LARGE_FILE_THRESHOLD : Nat := 19 * 1024 * 1024

/-- Chunk size (`CHUNK_SIZE = 10 * 1024 * 1024` in `imageHost.ts`). -/
def CHUNK_SIZE : Nat := 10 * 1024 * 1024

/-- Hard ceiling of `uploadFileWithChunking` (`100 * 1024 * 1024`, the
literal in its size check). -/
def CHUNKED_UPLOAD_LIMIT : Nat := 100 * 1024 * 1024

/-! ## URL primitives

`new URL(...)`, `hostname`, `pathname` and `String.prototype.includes`,
modelled over character lists for the URL shapes the pipeline handles
(absolute `scheme://...` URLs without percent-encoding surprises). -/

/-- Sequence-prefix test over lists. -/
def isPrefixSeq {α : Type _} [DecidableEq α] : List α → List α → Bool
  | [], _ => true
  | _ :: _, [] => false
  | p :: ps, a :: l => p = a && isPrefixSeq ps l

/-- Model of JavaScript `String.prototype.includes` at the list level. -/
def containsSeq {α : Type _} [DecidableEq α] (p : List α) : List α → Bool
  | [] => p.isEmpty
  | a :: l => isPrefixSeq p (a :: l) || containsSeq p l

/-- Model of `String.prototype.includes`. -/
def strIncludes (s pat : String) : Bool := containsSeq pat.toList s.toList

/-- Split a list at the first occurrence of the sequence `p`, returning the
parts before and after it. -/
def breakAtSeq {α : Type _} [DecidableEq α] (p : List α) : List α →
    Option (List α × List α)
  | [] => none
  | a :: l =>
    if isPrefixSeq p (a :: l) then some ([], (a :: l).drop p.length)
    else
      match breakAtSeq p l with
      | none => none
      | some (b, r) => some (a :: b, r)

/-- Model of `new URL(url).hostname` (lower-cased, port and userinfo
stripped); `none` models the `TypeError` thrown on an input without a
`scheme://` part. -/
def hostnameOf (url : String) : Option String :=
  match breakAtSeq "://".toList url.toList with
  | none => none
  | some (scheme, rest) =>
    if scheme.isEmpty then none
    else
      let authority := rest.takeWhile (fun c => !(c = '/' || c = '?' || c = '#'))
      let hostPort := (authority.reverse.takeWhile (fun c => !(c = '@'))).reverse
      let host := hostPort.takeWhile (fun c => !(c = ':'))
      if host.isEmpty then none else some (String.mk (host.map Char.toLower))

/-- Model of `new URL(url).pathname`. -/
def pathnameOf (url : String) : Option String :=
  match breakAtSeq "://".toList url.toList with
  | none => none
  | some (scheme, rest) =>
    if scheme.isEmpty then none
    else
      let afterAuthority := rest.dropWhile (fun c => !(c = '/' || c = '?' || c = '#'))
      let path := afterAuthority.takeWhile (fun c => !(c = '?' || c = '#'))
      if path.isEmpty then some "/" else some (String.mk path)

/-! ## Platform detection and proxy decision (`proxyUrl.ts`) -/

/-- Platform detection result (`PlatformInfo`). -/
structure PlatformInfo where
  platform : String
  supportsProxy : Bool
deriving DecidableEq, Repr

/-- Translation of `detectPlatform`: classify by hostname substrings; a URL
whose parsing throws is caught and classified as unsupported `unknown`. -/
def detectPlatform (url : String) : PlatformInfo :=
  match hostnameOf url with
  | none => { platform := "unknown", supportsProxy := false }
  | some hostname =>
    if strIncludes hostname "xhscdn.com" || strIncludes hostname "xiaohongshu.com" then
      { platform := "xiaohongshu", supportsProxy := true }
    else if strIncludes hostname "douyin.com" || strIncludes hostname "aweme.snssdk.com"
        || strIncludes hostname "zjcdn.com" || strIncludes hostname "bytecdn.com" then
      { platform := "douyin", supportsProxy := true }
    else
      { platform := "unknown", supportsProxy := false }

/-- Translation of `shouldUseProxy`: proxy only above
`PROXY_SIZE_THRESHOLD`; when a platform name is given (JavaScript
truthiness, so the empty string skips the check) it must detect as
proxy-capable via the probe URL `https://<platform>.com/test`. -/
def shouldUseProxy (fileSize : Nat) (platform : String) : Bool :=
  if fileSize ≤ PROXY_SIZE_THRESHOLD then false
  else if platform = "" then true
  else (detectPlatform ("https://" ++ platform ++ ".com/test")).supportsProxy

/-! ## CDN proxy addressing scheme (`proxyUrl.ts`, media proxy worker)

The token pipeline is modelled byte-for-byte: `JSON.stringify` with the
object-literal field order (omitting absent optional fields), `btoa`/`atob`
base64 (forgiving decoding: optional padding, rejecting a remainder of 1),
the 32-bit signed hash of `generateSignature` with `Math.abs(...).toString(36)`,
and `new URL(...).pathname.split('/')`.  `Date.now()` and the random part of
a generated file name are passed in as parameters (`now`, `fallbackSuffix`).
`JSON.parse` is modelled by a parser for the canonical field order produced
by `createProxyUrl` (which is the only order arising in this development);
string escapes cover the single-character JSON escapes. -/

/-- Proxy token metadata (`ProxyMetadata`): `backupUrls = []` models the
absent optional field, `signature = none` the absent signature. -/
structure ProxyMetadata where
  original : String
  filename : String
  timestamp : Nat
  source : String
  backupUrls : List String
  signature : Option String
deriving DecidableEq, Repr

/-- Decimal digit character. -/
def digitChar (n : Nat) : Char :=
  if n = 0 then '0' else if n = 1 then '1' else if n = 2 then '2'
  else if n = 3 then '3' else if n = 4 then '4' else if n = 5 then '5'
  else if n = 6 then '6' else if n = 7 then '7' else if n = 8 then '8' else '9'

/-- Decimal digits, with explicit recursion fuel (any fuel above the number
itself is enough, see `natDigitsAux_congr`). -/
def natDigitsAux : Nat → Nat → List Char
  | 0, _ => []
  | fuel + 1, n =>
    if n < 10 then [digitChar n]
    else natDigitsAux fuel (n / 10) ++ [digitChar (n % 10)]

/-- Decimal digits of a natural number, most significant first (the
rendering of a safe-integer JavaScript number). -/
def natDigits (n : Nat) : List Char := natDigitsAux (n + 1) n

/-- Decimal string of a natural number. -/
def natString (n : Nat) : String := String.mk (natDigits n)

/-- JavaScript `ToInt32`: reduce modulo `2^32` into `[-2^31, 2^31)`. -/
def toInt32 (x : Int) : Int :=
  let r := x % 4294967296
  if r < 2147483648 then r else r - 4294967296

/-- One step of the `generateSignature` hash:
`hash = ((hash << 5) - hash) + charCode; hash = hash & hash`. -/
def hashStep (h : Int) (c : Nat) : Int := toInt32 (toInt32 (h * 32) - h + c)

/-- UTF-16 code units of a character (`charCodeAt` walks these). -/
def utf16Units (c : Char) : List Nat :=
  let n := c.toNat
  if n < 65536 then [n]
  else [55296 + (n - 65536) / 1024, 56320 + (n - 65536) % 1024]

/-- UTF-16 code units of a string. -/
def utf16CodeUnits (s : String) : List Nat := (s.toList.map utf16Units).flatten

/-- Base-36 digit in the alphabet `0-9a-z` used by `Number.toString(36)`. -/
def base36Digit (n : Nat) : Char :=
  if n < 10 then Char.ofNat (48 + n) else Char.ofNat (87 + n)

/-- Base-36 digits, with explicit recursion fuel. -/
def base36CharsAux : Nat → Nat → List Char
  | 0, _ => []
  | fuel + 1, n =>
    if n < 36 then [base36Digit n]
    else base36CharsAux fuel (n / 36) ++ [base36Digit (n % 36)]

/-- Base-36 digits of a natural number, most significant first. -/
def base36Chars (n : Nat) : List Char := base36CharsAux (n + 1) n

/-- Translation of `generateSignature`: fold the 32-bit hash over the code
units, then `Math.abs(hash).toString(36)`. -/
def generateSignature (data : String) : String :=
  String.mk (base36Chars ((utf16CodeUnits data).foldl hashStep 0).natAbs)

/-- Hexadecimal digit (lower case), for `\u00XX` escapes. -/
def hexDigit (n : Nat) : Char :=
  if n < 10 then Char.ofNat (48 + n) else Char.ofNat (87 + n)

/-- JSON escape of one character, as `JSON.stringify` emits it. -/
def jsonEscapeChar (c : Char) : List Char :=
  if c = '"' then ['\\', '"']
  else if c = '\\' then ['\\', '\\']
  else if c = '\x08' then ['\\', 'b']
  else if c = '\x09' then ['\\', 't']
  else if c = '\x0a' then ['\\', 'n']
  else if c = '\x0c' then ['\\', 'f']
  else if c = '\x0d' then ['\\', 'r']
  else if c.toNat < 32 then
    ['\\', 'u', '0', '0', hexDigit (c.toNat / 16), hexDigit (c.toNat % 16)]
  else [c]

/-- JSON string literal (quotes included). -/
def jsonQuote (s : String) : List Char :=
  '"' :: (s.toList.map jsonEscapeChar).flatten ++ ['"']

/-- JSON array of string literals. -/
def jsonStringArray (l : List String) : List Char :=
  '[' :: List.intercalate [','] (l.map jsonQuote) ++ [']']

/-- `JSON.stringify` of a `ProxyMetadata` record, with the object-literal
insertion order `original, filename, timestamp, source, backupUrls,
signature` and absent optional fields omitted. -/
def metadataJson (m : ProxyMetadata) : List Char :=
  ("\x7b\"original\":").toList ++ jsonQuote m.original
    ++ (",\"filename\":").toList ++ jsonQuote m.filename
    ++ (",\"timestamp\":").toList ++ natDigits m.timestamp
    ++ (",\"source\":").toList ++ jsonQuote m.source
    ++ (if m.backupUrls.isEmpty then []
        else (",\"backupUrls\":").toList ++ jsonStringArray m.backupUrls)
    ++ (match m.signature with
        | none => []
        | some s => (",\"signature\":").toList ++ jsonQuote s)
    ++ ['\x7d']

/-- Base64 alphabet. -/
def B64_ALPHABET : List Char :=
  "ABCDEFGHIJKLMNOPQRSTUVWXYZabcdefghijklmnopqrstuvwxyz0123456789+/".toList

/-- Character for a 6-bit value. -/
def b64Char (n : Nat) : Char := B64_ALPHABET.getD n 'A'

/-- 6-bit value of a base64 character. -/
def b64Value (c : Char) : Option Nat :=
  let i := B64_ALPHABET.indexOf c
  if i < 64 then some i else none

/-- Sextet stream of a byte stream (3 bytes → 4 sextets, with the partial
final group of `btoa`). -/
def btoaSextets : List Nat → List Nat
  | [] => []
  | [b] => [b / 4, b % 4 * 16]
  | [b, c] => [b / 4, b % 4 * 16 + c / 16, c % 16 * 4]
  | b :: c :: d :: rest =>
      (b / 4) :: (b % 4 * 16 + c / 16) :: (c % 16 * 4 + d / 64) :: (d % 64) :: btoaSextets rest

/-- Padding emitted by `btoa` for a byte count. -/
def b64Padding (len : Nat) : List Char :=
  match len % 3 with
  | 0 => []
  | 1 => ['=', '=']
  | _ => ['=']

/-- Translation of `btoa`: encode a byte list; `none` models the
`InvalidCharacterError` thrown when a code unit exceeds 255. -/
def btoa (bytes : List Nat) : Option (List Char) :=
  if bytes.all (· < 256) then
    some ((btoaSextets bytes).map b64Char ++ b64Padding bytes.length)
  else none

/-- Byte stream of a sextet stream (forgiving decoding: a trailing group of
2 or 3 sextets contributes 1 or 2 bytes, spill bits discarded). -/
def atobDecode : List Nat → List Nat
  | [] => []
  | [_] => []
  | [x, y] => [x * 4 + y / 16]
  | [x, y, z] => [x * 4 + y / 16, y % 16 * 16 + z / 4]
  | x :: y :: z :: w :: rest =>
      (x * 4 + y / 16) :: (y % 16 * 16 + z / 4) :: (z % 4 * 64 + w) :: atobDecode rest

/-- Strip the `=` padding (at most two characters) from a base64 string. -/
def stripB64Padding (l : List Char) : List Char :=
  match l.reverse with
  | '=' :: '=' :: r => r.reverse
  | '=' :: r => r.reverse
  | _ => l

/-- Translation of `atob` with forgiving base64 semantics: drop the
padding, reject a remainder of one character or any character outside the
alphabet, decode the rest. -/
def atob (s : List Char) : Option (List Nat) :=
  let t := stripB64Padding s
  if t.length % 4 = 1 then none
  else
    match t.mapM b64Value with
    | none => none
    | some sextets => some (atobDecode sextets)

/-- Split a character list on a separator character
(`String.prototype.split`). -/
def splitOnChar (sep : Char) : List Char → List (List Char)
  | [] => [[]]
  | c :: rest =>
    let r := splitOnChar sep rest
    if c = sep then [] :: r
    else
      match r with
      | [] => [[c]]
      | h :: t => (c :: h) :: t

/-- Translation of `generateFileName`: take the last path segment when it
contains a dot, otherwise build `<platform>_video_<timestamp>_<random>.mp4`
(the timestamp-and-random part is the `fallbackSuffix` parameter); a URL
that fails to parse also falls back. -/
def generateFileName (originalUrl platform : String) (fallbackSuffix : String) : String :=
  match pathnameOf originalUrl with
  | none => platform ++ "_video_" ++ fallbackSuffix ++ ".mp4"
  | some pathname =>
    let pathParts := splitOnChar '/' pathname.toList
    let lastPart := pathParts.getLastD []
    if !lastPart.isEmpty && lastPart.contains '.' then String.mk lastPart
    else platform ++ "_video_" ++ fallbackSuffix ++ ".mp4"

/-- Data signed into a token: `` `${originalUrl}|${filename}|${timestamp}` ``. -/
def signatureData (originalUrl filename : String) (timestamp : Nat) : String :=
  originalUrl ++ "|" ++ filename ++ "|" ++ natString timestamp

/-- Metadata record built by `createProxyUrl` before encoding. -/
def mintedMetadata (originalUrl : String) (backupUrls : List String) (now : Nat)
    (fallbackSuffix : String) : ProxyMetadata :=
  let platformInfo := detectPlatform originalUrl
  let filename := generateFileName originalUrl platformInfo.platform fallbackSuffix
  { original := originalUrl
    filename := filename
    timestamp := now
    source := if platformInfo.platform = "unknown" then "douyin" else platformInfo.platform
    backupUrls := backupUrls
    signature := some (generateSignature (signatureData originalUrl filename now)) }

/-- Translation of `createProxyUrl`: unsupported platforms (and any error,
such as `btoa` on out-of-range characters) fall back to the original URL;
otherwise the metadata is serialized, base64-encoded and embedded in
`<WORKER_URL>/proxy/v1/<encoded>`.  `extractBackupUrls(parseData)` is the
`backupUrls` parameter ( `[]` when no parse data is passed). -/
def createProxyUrl (originalUrl : String) (backupUrls : List String) (now : Nat)
    (fallbackSuffix : String) : String :=
  let platformInfo := detectPlatform originalUrl
  if !platformInfo.supportsProxy then originalUrl
  else
    let metadata := mintedMetadata originalUrl backupUrls now fallbackSuffix
    match btoa ((metadataJson metadata).map Char.toNat) with
    | none => originalUrl
    | some encodedMetadata =>
      PROXY_WORKER_URL ++ "/proxy/" ++ PROXY_VERSION ++ "/" ++ String.mk encodedMetadata

/-- JSON unescape of a single-character escape. -/
def jsonUnescape (e : Char) : Option Char :=
  if e = '"' then some '"'
  else if e = '\\' then some '\\'
  else if e = '/' then some '/'
  else if e = 'b' then some '\x08'
  else if e = 'f' then some '\x0c'
  else if e = 'n' then some '\x0a'
  else if e = 'r' then some '\x0d'
  else if e = 't' then some '\x09'
  else none

/-- Parse a JSON string body up to the closing quote, returning the
unescaped content and the remainder. -/
def parseJsonStringBody : List Char → Option (List Char × List Char)
  | [] => none
  | c :: rest =>
    if c = '"' then some ([], rest)
    else if c = '\\' then
      match rest with
      | [] => none
      | e :: rest2 =>
        match jsonUnescape e, parseJsonStringBody rest2 with
        | some u, some (s, r) => some (u :: s, r)
        | _, _ => none
    else if c.toNat < 32 then none
    else
      match parseJsonStringBody rest with
      | none => none
      | some (s, r) => some (c :: s, r)

/-- Parse a quoted JSON string. -/
def parseQuotedString (l : List Char) : Option (String × List Char) :=
  match l with
  | [] => none
  | c :: rest =>
    if c = '"' then (parseJsonStringBody rest).map (fun p => (String.mk p.1, p.2))
    else none

/-- Decimal digit test. -/
def isDigitChar (c : Char) : Bool := 48 ≤ c.toNat && c.toNat ≤ 57

/-- Parse a nonempty run of decimal digits. -/
def parseNatRun (l : List Char) : Option (Nat × List Char) :=
  let digs := l.takeWhile isDigitChar
  if digs.isEmpty then none
  else some (digs.foldl (fun a c => a * 10 + (c.toNat - 48)) 0, l.dropWhile isDigitChar)

/-- Consume the head of the input when it equals the literal, returning the
remainder. -/
def expectLit : List Char → List Char → Option (List Char)
  | [], l => some l
  | _ :: _, [] => none
  | e :: es, c :: cs => if c = e then expectLit es cs else none

/-- Parse a nonempty comma-separated list of JSON strings up to `]`. -/
def parseStringListAux : Nat → List Char → Option (List String × List Char)
  | 0, _ => none
  | fuel + 1, l =>
    match parseQuotedString l with
    | none => none
    | some (s, r) =>
      match r with
      | ',' :: r2 => (parseStringListAux fuel r2).map (fun p => (s :: p.1, p.2))
      | ']' :: r2 => some ([s], r2)
      | _ => none

/-- Parse the optional `signature` field and the closing brace. -/
def parseSigEnd (l : List Char) : Option (Option String) :=
  if l = ['\x7d'] then some none
  else
    match expectLit (",\"signature\":").toList l with
    | none => none
    | some r =>
      match parseQuotedString r with
      | none => none
      | some (sig, rest) => if rest = ['\x7d'] then some (some sig) else none

/-- Parse the optional `backupUrls` field, then the signature and closing
brace. -/
def parseOptionalTail (l : List Char) : Option (List String × Option String) :=
  match expectLit (",\"backupUrls\":[").toList l with
  | some r =>
    match parseStringListAux (r.length + 1) r with
    | none => none
    | some (urls, r2) => (parseSigEnd r2).map (fun sig => (urls, sig))
  | none => (parseSigEnd l).map (fun sig => ([], sig))

/-- `JSON.parse` of a proxy-metadata document, restricted to the canonical
field order emitted by `createProxyUrl` (the only order arising here). -/
def parseMetadataJson (l : List Char) : Option ProxyMetadata :=
  match expectLit ("\x7b\"original\":").toList l with
  | none => none
  | some r1 =>
    match parseQuotedString r1 with
    | none => none
    | some (original, r2) =>
      match expectLit (",\"filename\":").toList r2 with
      | none => none
      | some r3 =>
        match parseQuotedString r3 with
        | none => none
        | some (filename, r4) =>
          match expectLit (",\"timestamp\":").toList r4 with
          | none => none
          | some r5 =>
            match parseNatRun r5 with
            | none => none
            | some (timestamp, r6) =>
              match expectLit (",\"source\":").toList r6 with
              | none => none
              | some r7 =>
                match parseQuotedString r7 with
                | none => none
                | some (source, r8) =>
                  match parseOptionalTail r8 with
                  | none => none
                  | some (backupUrls, signature) =>
                    some { original := original, filename := filename
                           timestamp := timestamp, source := source
                           backupUrls := backupUrls, signature := signature }

/-- Required-field truthiness check shared by `parseProxyUrl` and the
worker's `parseProxyRequest`:
`!metadata.original || !metadata.source || !metadata.filename → null`
(the empty string is falsy). -/
def presentCheck (m : ProxyMetadata) : Option ProxyMetadata :=
  if m.original ≠ "" ∧ m.source ≠ "" ∧ m.filename ≠ "" then some m else none

/-- Decode an encoded token: `atob`, `JSON.parse`, required-field check. -/
def decodeTokenChars (enc : List Char) : Option ProxyMetadata :=
  match atob enc with
  | none => none
  | some bytes =>
    match parseMetadataJson (bytes.map Char.ofNat) with
    | none => none
    | some m => presentCheck m

/-- Translation of `parseProxyUrl`: split the URL's pathname on `/`, check
`pathParts.length ≥ 4` and `pathParts[1] === 'proxy'`, then decode
`pathParts[3]` — so a `/` inside the base64 token truncates it here. -/
def parseProxyUrl (proxyUrl : String) : Option ProxyMetadata :=
  match pathnameOf proxyUrl with
  | none => none
  | some pathname =>
    let pathParts := splitOnChar '/' pathname.toList
    if pathParts.length < 4 then none
    else if pathParts.getD 1 [] ≠ "proxy".toList then none
    else decodeTokenChars (pathParts.getD 3 [])

/-- Translation of `validateProxyUrl` at time `now`: parse, reject when the
age exceeds `maxAge`, and verify the signature only when one is present and
truthy. -/
def validateProxyUrl (now : Nat) (proxyUrl : String) (maxAge : Int) : Bool :=
  match parseProxyUrl proxyUrl with
  | none => false
  | some metadata =>
    if (now : Int) - (metadata.timestamp : Int) > maxAge then false
    else
      match metadata.signature with
      | none => true
      | some sig =>
        if sig = "" then true
        else sig == generateSignature
          (signatureData metadata.original metadata.filename metadata.timestamp)

/-- Translation of the media proxy worker's `parseProxyRequest` on a request
pathname: the regex `^\/proxy\/v1\/(.+?)(?:\.mp4)?$` strips the literal
head and an optional `.mp4` suffix (the lazy group keeps at least one
character), then the token is decoded exactly as in `parseProxyUrl` — with
NO signature verification anywhere on the serving path. -/
def parseProxyRequest (pathname : String) : Option ProxyMetadata :=
  match expectLit ("/proxy/v1/").toList pathname.toList with
  | none => none
  | some rest =>
    if rest.isEmpty then none
    else
      let enc :=
        if 4 < rest.length ∧ rest.drop (rest.length - 4) = ".mp4".toList then
          rest.take (rest.length - 4)
        else rest
      decodeTokenChars enc

/-! ## Storage router (`media.ts`)

The network is abstracted as a map `env : String → Origin` from a URL to a
descriptor of the origin behind it.  A `content-length` header, when
present, reports the origin's true byte count `size`; `arrayBuffer()` on a
successful `GET` yields `size` bytes.  The two router entry points return a
`RouteOutcome` — which of the four possible kinds of string the `Promise`
resolves to (a hosting-backend URL for uploaded bytes, a freshly minted
proxy URL, the unchanged input URL, or a thrown error) — together with the
list of origin requests performed, in order.  Upload calls to the hosting
backend (`imageHostService`) are modelled as succeeding whenever
`uploadFileWithChunking` does not reject the size; their network traffic
targets the image host, not the origin, and is not part of the origin
trace. -/

/-- Descriptor of the origin behind a media URL. -/
structure Origin where
  size : Nat
  getOk : Bool
  headOk : Bool
  getHasLength : Bool
  headHasLength : Bool
deriving DecidableEq, Repr

/-- Origin requests performed by the router, in order. -/
inductive NetEvent where
  | headRequest (url : String)
  | getRequest (url : String)
  | bodyRead (url : String) (bytes : Nat)
deriving DecidableEq, Repr

/-- Error kinds thrown along the routing paths the claims are about. -/
inductive MediaError where
  | sizeUnknown
  | fetchFailed
  | unsupportedLargeFile (platform : String)
  | uploadTooLarge
deriving DecidableEq, Repr

/-- Kind of string the router resolves with (or the error it throws). -/
inductive RouteOutcome where
  | uploaded (storageKey : String) (bytes : Nat)
  | proxied (originalUrl : String)
  | raw (url : String)
  | failed (e : MediaError)
deriving DecidableEq, Repr

/-- Router options (`MediaProcessOptions`), restricted to the two fields the
routing logic reads (`forceImageHost` is destructured but never used in the
source; `timeout` only bounds the network calls). -/
structure MediaOptions where
  fileSizeThreshold : Nat := FILE_SIZE_THRESHOLD
  isLivePhoto : Bool := false
deriving DecidableEq, Repr

/-- Size routing of `ImageHostService.uploadFile` (`imageHost.ts`): above
`LARGE_FILE_THRESHOLD` it goes through `uploadFileWithChunking`, which
rejects anything above `CHUNKED_UPLOAD_LIMIT` (`文件大小超过 100MB 限制`)
before uploading a single chunk; otherwise the payload is uploaded (normally
or in chunks) and a hosting URL is returned, modelled as
`RouteOutcome.uploaded`. -/
def uploadFile (bytes : Nat) (storageKey : String) : RouteOutcome :=
  if bytes > LARGE_FILE_THRESHOLD then
    if bytes > CHUNKED_UPLOAD_LIMIT then .failed .uploadTooLarge
    else .uploaded storageKey bytes
  else .uploaded storageKey bytes

/-- Classification of the string the router resolves with on its proxy
branch, which returns `createProxyUrl(...)` directly: when the metadata
serializes to Latin-1 bytes, `btoa` succeeds and the string is a freshly
minted worker URL (`.proxied`); when `btoa` throws, the `catch` in
`createProxyUrl` (and likewise its unsupported-platform guard) falls back
to returning the ORIGINAL URL, so the router resolves with the unchanged
input (`.raw`).  Mirrors the branch structure of `createProxyUrl`. -/
def mintOutcome (url : String) (backupUrls : List String) (now : Nat)
    (fallbackSuffix : String) : RouteOutcome :=
  if !(detectPlatform url).supportsProxy then .raw url
  else
    match btoa ((metadataJson
        (mintedMetadata url backupUrls now fallbackSuffix)).map Char.toNat) with
    | none => .raw url
    | some _ => .proxied url

/-- Translation of `processMediaFile` (`media.ts`) on a URL input (the
`ArrayBuffer`/`Uint8Array` input branch uploads directly and is not needed
by the claims).  The live-photo branch skips size detection entirely: one
`GET`, read the body, upload.  The normal branch performs a `GET`, reads
`content-length` (falling back to a `HEAD` request when absent), throws
`无法获取文件大小` when no size is obtainable, and at or above the threshold
either returns `createProxyUrl(url)` — a minted proxy URL, degrading to the
raw input URL when the encoding step throws (`mintOutcome url []`) — or
throws `...不支持CDN代理，无法处理此文件`; below the threshold it reads the
body and uploads.  `now` and `fallbackSuffix` feed the mint exactly as in
`createProxyUrl`. -/
def processMediaFile (env : String → Origin) (url : String) (storageKey : String)
    (opts : MediaOptions) (now : Nat) (fallbackSuffix : String) :
    RouteOutcome × List NetEvent :=
  let o := env url
  if opts.isLivePhoto then
    if !o.getOk then (.failed .fetchFailed, [.getRequest url])
    else (uploadFile o.size storageKey, [.getRequest url, .bodyRead url o.size])
  else
    if !o.getOk then (.failed .fetchFailed, [.getRequest url])
    else
      let sizeFromGet := if o.getHasLength then o.size else 0
      let withHead := sizeFromGet = 0
      let fileSize :=
        if withHead then (if o.headOk && o.headHasLength then o.size else 0)
        else sizeFromGet
      let evs :=
        if withHead then [NetEvent.getRequest url, NetEvent.headRequest url]
        else [NetEvent.getRequest url]
      if fileSize = 0 then (.failed .sizeUnknown, evs)
      else if fileSize ≥ opts.fileSizeThreshold then
        let platformInfo := detectPlatform url
        let shouldProxy := shouldUseProxy fileSize platformInfo.platform
        if shouldProxy && platformInfo.supportsProxy then
          (mintOutcome url [] now fallbackSuffix, evs)
        else (.failed (.unsupportedLargeFile platformInfo.platform), evs)
      else
        (uploadFile o.size storageKey, evs ++ [.bodyRead url o.size])

/-- Translation of `processMediaFileWithParseData` (`media.ts`).  The size
probe is a `HEAD` request (failures caught, leaving the size at `0`); an
unknown size throws `无法获取文件大小`.  At or above the threshold, a
non-live item on a proxy-capable platform returns
`createProxyUrl(url, parseData)` — a minted proxy URL, degrading to the raw
input URL when the encoding step throws (`mintOutcome url backupUrls`,
where `backupUrls` stands for `extractBackupUrls(parseData)`) — while on
an unsupported platform the function logs `大文件无法使用CDN代理，返回原始URL`
and RETURNS THE INPUT URL UNCHANGED (it does not throw).  Otherwise —
smaller files and live photos of any size — the bytes are fetched with a
`GET` and uploaded. -/
def processMediaFileWithParseData (env : String → Origin) (url : String)
    (storageKey : String) (opts : MediaOptions) (backupUrls : List String)
    (now : Nat) (fallbackSuffix : String) : RouteOutcome × List NetEvent :=
  let o := env url
  let fileSize := if o.headOk && o.headHasLength then o.size else 0
  if fileSize = 0 then (.failed .sizeUnknown, [.headRequest url])
  else if fileSize ≥ opts.fileSizeThreshold && !opts.isLivePhoto then
    let platformInfo := detectPlatform url
    let shouldProxy := shouldUseProxy fileSize platformInfo.platform
    if shouldProxy && platformInfo.supportsProxy then
      (mintOutcome url backupUrls now fallbackSuffix, [.headRequest url])
    else
      (.raw url, [.headRequest url])
  else
    if !o.getOk then (.failed .fetchFailed, [.headRequest url, .getRequest url])
    else
      (uploadFile o.size storageKey,
        [.headRequest url, .getRequest url, .bodyRead url o.size])

/-- A proxy-capable detection result names one of the two platforms. -/
theorem platform_of_supportsProxy {url : String}
    (h : (detectPlatform url).supportsProxy = true) :
    (detectPlatform url).platform = "xiaohongshu" ∨
      (detectPlatform url).platform = "douyin" := by
  unfold detectPlatform at h ⊢
  cases hh : hostnameOf url <;> simp only [hh] at h ⊢
  · simp_all
  · split_ifs at h ⊢ <;> simp_all

/-- Above `PROXY_SIZE_THRESHOLD`, `shouldUseProxy` accepts both supported
platform names. -/
theorem shouldUseProxy_of_platform {s : Nat} {p : String}
    (hs : PROXY_SIZE_THRESHOLD < s)
    (hp : p = "xiaohongshu" ∨ p = "douyin") :
    shouldUseProxy s p = true := by
  have hns : ¬ s ≤ PROXY_SIZE_THRESHOLD := by omega
  rcases hp with rfl | rfl <;>
    simp only [shouldUseProxy, if_neg hns] <;> decide

/-- Origin descriptor with a fixed size, fully reachable, reporting its
length on both `GET` and `HEAD`. -/
def originOfSize (n : Nat) : Origin :=
  { size := n, getOk := true, headOk := true
    getHasLength := true, headHasLength := true }

/-- Environment in which every URL has the same fully reachable origin. -/
def envOfSize (n : Nat) : String → Origin := fun _ => originOfSize n

/-- A douyin CDN URL (proxy-capable platform). -/
def douyinUrl : String := "https://v.douyin.com/abc.mp4"

/-- A URL on no supported platform. -/
def unknownPlatformUrl : String := "https://example.com/big.mp4"

/-- C3 — amended.  For an item probing at or above the routing threshold on
a platform that does not support proxying, `processMediaFile` throws the
distinct oversized-unsupported error, but `processMediaFileWithParseData`
silently returns the raw origin URL instead of failing. -/
theorem C3_oversized_unsupported_policy
    (env : String → Origin) (url storageKey : String)
    (backupUrls : List String) (now : Nat) (fallbackSuffix : String)
    (hget : (env url).getOk = true)
    (hgl : (env url).getHasLength = true)
    (hhead : (env url).headOk = true)
    (hhl : (env url).headHasLength = true)
    (hsize : FILE_SIZE_THRESHOLD ≤ (env url).size)
    (hplat : (detectPlatform url).supportsProxy = false) :
    (processMediaFile env url storageKey {} now fallbackSuffix).1 =
      .failed (.unsupportedLargeFile (detectPlatform url).platform) ∧
    (processMediaFileWithParseData env url storageKey {} backupUrls now
      fallbackSuffix).1 = .raw url := by
  have hpos : (0 : Nat) < FILE_SIZE_THRESHOLD := by decide
  have hns : ¬ (env url).size = 0 := by omega
  constructor
  · simp [processMediaFile, hget, hgl, hns, hsize, hplat]
  · simp [processMediaFileWithParseData, hhead, hhl, hns, hsize, hplat]

/-- C3 — counterexample.  A 120 MiB file on an unsupported platform makes
`processMediaFileWithParseData` return the raw origin URL — an ordinary
resolved value, not an error — contradicting the claim that BOTH router
entry points fail with a distinct error. -/
theorem C3_counterexample :
    (detectPlatform unknownPlatformUrl).supportsProxy = false ∧
    FILE_SIZE_THRESHOLD ≤ (envOfSize 125829120 unknownPlatformUrl).size ∧
    (processMediaFileWithParseData (envOfSize 125829120) unknownPlatformUrl
        "videos/k" {} [] 0 "").1 = .raw unknownPlatformUrl := by
  decide

/-- C3 — witness for the amended theorem at a concrete 120 MiB unsupported
origin. -/
theorem C3_witness :
    (processMediaFile (envOfSize 125829120) unknownPlatformUrl "videos/k" {} 0 "").1 =
      .failed (.unsupportedLargeFile (detectPlatform unknownPlatformUrl).platform) ∧
    (processMediaFileWithParseData (envOfSize 125829120) unknownPlatformUrl
        "videos/k" {} [] 0 "").1 = .raw unknownPlatformUrl :=
  C3_oversized_unsupported_policy (envOfSize 125829120) unknownPlatformUrl "videos/k"
    [] 0 "" rfl rfl rfl rfl (by decide) (by decide)

/-- C4 — confirmed.  When no content length is obtainable (the `GET`
response carries none and the `HEAD` probe either fails or carries none),
both router entry points throw (`无法获取文件大小` when the fetch itself
succeeded): the outcome is an error, never an uploaded, proxied or raw
address, and no response body is ever read. -/
theorem C4_size_unknown_fails
    (env : String → Origin) (url storageKey : String)
    (backupUrls : List String) (now : Nat) (fallbackSuffix : String)
    (hgl : (env url).getHasLength = false)
    (hhead : (env url).headOk = false ∨ (env url).headHasLength = false) :
    ((env url).getOk = true →
      (processMediaFile env url storageKey {} now fallbackSuffix).1 =
        .failed .sizeUnknown) ∧
    (∃ e, (processMediaFile env url storageKey {} now fallbackSuffix).1 =
      .failed e) ∧
    (∀ u b, NetEvent.bodyRead u b ∉
      (processMediaFile env url storageKey {} now fallbackSuffix).2) ∧
    (processMediaFileWithParseData env url storageKey {} backupUrls now
      fallbackSuffix).1 = .failed .sizeUnknown ∧
    (∀ u b, NetEvent.bodyRead u b ∉
      (processMediaFileWithParseData env url storageKey {} backupUrls now
        fallbackSuffix).2) := by
  have hprobe : ((env url).headOk && (env url).headHasLength) = false := by
    rcases hhead with h | h <;> simp [h]
  by_cases hget : (env url).getOk = true
  · refine ⟨fun _ => ?_, ⟨.sizeUnknown, ?_⟩, ?_, ?_, ?_⟩ <;>
      simp [processMediaFile, processMediaFileWithParseData, hget, hgl, hprobe]
  · have hget' : (env url).getOk = false := by
      cases h : (env url).getOk
      · rfl
      · exact absurd h hget
    refine ⟨fun h => absurd h hget, ⟨.fetchFailed, ?_⟩, ?_, ?_, ?_⟩ <;>
      simp [processMediaFile, processMediaFileWithParseData, hget', hgl, hprobe]

/-- Environment whose origins never report a content length. -/
def opaqueEnv : String → Origin :=
  fun _ => { size := 5000000, getOk := true, headOk := true
             getHasLength := false, headHasLength := false }

/-- C4 — witness at a concrete origin with no obtainable length. -/
theorem C4_witness :
    (opaqueEnv douyinUrl).getHasLength = false ∧
    (opaqueEnv douyinUrl).headHasLength = false ∧
    (((opaqueEnv douyinUrl).getOk = true →
        (processMediaFile opaqueEnv douyinUrl "videos/k" {} 0 "").1 =
          .failed .sizeUnknown) ∧
      (∃ e, (processMediaFile opaqueEnv douyinUrl "videos/k" {} 0 "").1 = .failed e) ∧
      (∀ u b, NetEvent.bodyRead u b ∉
        (processMediaFile opaqueEnv douyinUrl "videos/k" {} 0 "").2) ∧
      (processMediaFileWithParseData opaqueEnv douyinUrl "videos/k" {} [] 0 "").1 =
        .failed .sizeUnknown ∧
      (∀ u b, NetEvent.bodyRead u b ∉
        (processMediaFileWithParseData opaqueEnv douyinUrl "videos/k" {} [] 0 "").2)) :=
  ⟨rfl, rfl, C4_size_unknown_fails opaqueEnv douyinUrl "videos/k" [] 0 "" rfl
    (Or.inr rfl)⟩

/-- Sizes within the chunked-upload limit are accepted by `uploadFile`. -/
theorem uploadFile_within_limit (n : Nat) (k : String)
    (h : n ≤ CHUNKED_UPLOAD_LIMIT) : uploadFile n k = .uploaded k n := by
  unfold uploadFile
  split_ifs with h1 h2
  · exact absurd h2 (by omega)
  · rfl
  · rfl

/-- Sizes above the chunked-upload limit are rejected by `uploadFile`. -/
theorem uploadFile_over_limit (n : Nat) (k : String)
    (h : CHUNKED_UPLOAD_LIMIT < n) : uploadFile n k = .failed .uploadTooLarge := by
  have h1 : LARGE_FILE_THRESHOLD < n := by
    have : LARGE_FILE_THRESHOLD < CHUNKED_UPLOAD_LIMIT := by decide
    omega
  unfold uploadFile
  rw [if_pos (by omega), if_pos (by omega)]

/-- An upload outcome is never a proxied or raw address. -/
theorem uploadFile_ne_proxied_raw (n : Nat) (k : String) :
    (∀ u, uploadFile n k ≠ .proxied u) ∧ (∀ u, uploadFile n k ≠ .raw u) := by
  unfold uploadFile
  split_ifs <;> simp

/-- When the platform is proxy-capable and the metadata encodes (`btoa`
does not throw), the mint genuinely yields a proxied address. -/
theorem mintOutcome_proxied {url : String} (backupUrls : List String) (now : Nat)
    (fallbackSuffix : String)
    (hplat : (detectPlatform url).supportsProxy = true)
    (hm : btoa ((metadataJson
        (mintedMetadata url backupUrls now fallbackSuffix)).map Char.toNat) ≠ none) :
    mintOutcome url backupUrls now fallbackSuffix = .proxied url := by
  unfold mintOutcome
  rw [if_neg (by simp [hplat])]
  cases hb : btoa ((metadataJson
      (mintedMetadata url backupUrls now fallbackSuffix)).map Char.toNat)
  · exact absurd hb hm
  · rfl

/-- C5 — amended.  With a successful probe: at or below the 100 MiB chunked
ceiling (hence below the routing threshold) both entry points read the body
and upload it; at or above the routing threshold on a proxy-capable
platform, both entry points read no response body and — whenever the
metadata encodes, i.e. `btoa` does not throw (every Latin-1 URL) — resolve
with a freshly minted proxy address.  (The original claim's first part
extended to the whole sub-threshold range and fails between the chunked
ceiling and the routing threshold; its second part held the mint to be
unconditional, but `createProxyUrl`'s catch degrades to the raw origin URL
when `btoa` throws — see the counterexample for both.) -/
theorem C5_small_uploads_large_proxies
    (env : String → Origin) (url storageKey : String)
    (backupUrls : List String) (now : Nat) (fallbackSuffix : String)
    (hget : (env url).getOk = true)
    (hgl : (env url).getHasLength = true)
    (hhead : (env url).headOk = true)
    (hhl : (env url).headHasLength = true)
    (hpos : 0 < (env url).size) :
    ((env url).size ≤ CHUNKED_UPLOAD_LIMIT →
      (processMediaFile env url storageKey {} now fallbackSuffix).1 =
        .uploaded storageKey (env url).size ∧
      NetEvent.bodyRead url (env url).size ∈
        (processMediaFile env url storageKey {} now fallbackSuffix).2 ∧
      (processMediaFileWithParseData env url storageKey {} backupUrls now
        fallbackSuffix).1 = .uploaded storageKey (env url).size ∧
      NetEvent.bodyRead url (env url).size ∈
        (processMediaFileWithParseData env url storageKey {} backupUrls now
          fallbackSuffix).2) ∧
    (FILE_SIZE_THRESHOLD ≤ (env url).size →
      (detectPlatform url).supportsProxy = true →
      (btoa ((metadataJson (mintedMetadata url [] now fallbackSuffix)).map
          Char.toNat) ≠ none →
        (processMediaFile env url storageKey {} now fallbackSuffix).1 =
          .proxied url) ∧
      (∀ u b, NetEvent.bodyRead u b ∉
        (processMediaFile env url storageKey {} now fallbackSuffix).2) ∧
      (btoa ((metadataJson (mintedMetadata url backupUrls now fallbackSuffix)).map
          Char.toNat) ≠ none →
        (processMediaFileWithParseData env url storageKey {} backupUrls now
          fallbackSuffix).1 = .proxied url) ∧
      (∀ u b, NetEvent.bodyRead u b ∉
        (processMediaFileWithParseData env url storageKey {} backupUrls now
          fallbackSuffix).2)) := by
  have hns : ¬ (env url).size = 0 := by omega
  constructor
  · intro hsmall
    have hlt : ¬ (env url).size ≥ FILE_SIZE_THRESHOLD := by
      have : CHUNKED_UPLOAD_LIMIT < FILE_SIZE_THRESHOLD := by decide
      omega
    have hup := uploadFile_within_limit (env url).size storageKey hsmall
    refine ⟨?_, ?_, ?_, ?_⟩ <;>
      simp [processMediaFile, processMediaFileWithParseData, hget, hgl, hhead, hhl,
        hns, hlt, hup]
  · intro hbig hplat
    have hsp : shouldUseProxy (env url).size (detectPlatform url).platform = true := by
      refine shouldUseProxy_of_platform ?_ (platform_of_supportsProxy hplat)
      have : PROXY_SIZE_THRESHOLD < FILE_SIZE_THRESHOLD := by decide
      omega
    refine ⟨?_, ?_, ?_, ?_⟩
    · intro hm
      simp [processMediaFile, hget, hgl, hns, hbig, hplat, hsp,
        mintOutcome_proxied [] now fallbackSuffix hplat hm]
    · simp [processMediaFile, hget, hgl, hns, hbig, hplat, hsp]
    · intro hm
      simp [processMediaFileWithParseData, hhead, hhl, hns, hbig, hplat, hsp,
        mintOutcome_proxied backupUrls now fallbackSuffix hplat hm]
    · simp [processMediaFileWithParseData, hhead, hhl, hns, hbig, hplat, hsp]

/-- A proxy-capable douyin URL containing a non-Latin-1 character, on which
the mint's `btoa` throws. -/
def nonLatinUrl : String := "https://v.douyin.com/中文.mp4"

set_option maxRecDepth 40000 in
/-- C5 — counterexample, in two parts.  (i) A 105 MiB douyin file probes
below the routing threshold, so the claim's first part promises a direct
upload; the router fetches the bytes but the chunked upload rejects
anything above 100 MiB, so the call throws and nothing is uploaded.
(ii) A 110 MiB file on a proxy-capable douyin host whose URL contains a
non-Latin-1 character: `btoa` throws on the metadata, `createProxyUrl`'s
catch returns the original URL, and the router resolves with the RAW input
URL — not the minted ProxyAddress the claim's second part promises. -/
theorem C5_counterexample :
    (CHUNKED_UPLOAD_LIMIT < (envOfSize 110100480 douyinUrl).size ∧
      (envOfSize 110100480 douyinUrl).size < FILE_SIZE_THRESHOLD ∧
      (processMediaFile (envOfSize 110100480) douyinUrl "videos/k" {} 0 "").1 =
        .failed .uploadTooLarge) ∧
    ((detectPlatform nonLatinUrl).supportsProxy = true ∧
      FILE_SIZE_THRESHOLD ≤ (envOfSize 115343360 nonLatinUrl).size ∧
      (processMediaFile (envOfSize 115343360) nonLatinUrl "videos/k" {} 0 "").1 =
        .raw nonLatinUrl ∧
      (processMediaFileWithParseData (envOfSize 115343360) nonLatinUrl "videos/k"
        {} [] 0 "").1 = .raw nonLatinUrl) := by
  refine ⟨by decide, by decide⟩

set_option maxRecDepth 40000 in
/-- C5 — witness for the amended theorem: a 50 MB file is uploaded with its
body read; a 110 MiB douyin file whose metadata encodes is proxied with no
body read. -/
theorem C5_witness :
    ((processMediaFile (envOfSize 50000000) douyinUrl "videos/k" {} 0 "").1 =
        .uploaded "videos/k" 50000000 ∧
      NetEvent.bodyRead douyinUrl 50000000 ∈
        (processMediaFile (envOfSize 50000000) douyinUrl "videos/k" {} 0 "").2 ∧
      (processMediaFileWithParseData (envOfSize 50000000) douyinUrl "videos/k"
        {} [] 0 "").1 = .uploaded "videos/k" 50000000 ∧
      NetEvent.bodyRead douyinUrl 50000000 ∈
        (processMediaFileWithParseData (envOfSize 50000000) douyinUrl "videos/k"
          {} [] 0 "").2) ∧
    (btoa ((metadataJson (mintedMetadata douyinUrl [] 1700000000000 "r0")).map
        Char.toNat) ≠ none ∧
      (processMediaFile (envOfSize 115343360) douyinUrl "videos/k"
        {} 1700000000000 "r0").1 = .proxied douyinUrl ∧
      (∀ u b, NetEvent.bodyRead u b ∉
        (processMediaFile (envOfSize 115343360) douyinUrl "videos/k"
          {} 1700000000000 "r0").2) ∧
      (processMediaFileWithParseData (envOfSize 115343360) douyinUrl "videos/k"
        {} [] 1700000000000 "r0").1 = .proxied douyinUrl ∧
      (∀ u b, NetEvent.bodyRead u b ∉
        (processMediaFileWithParseData (envOfSize 115343360) douyinUrl "videos/k"
          {} [] 1700000000000 "r0").2)) := by
  have h2 := (C5_small_uploads_large_proxies (envOfSize 115343360) douyinUrl
    "videos/k" [] 1700000000000 "r0" rfl rfl rfl rfl (by decide)).2
    (by decide) (by decide)
  exact ⟨(C5_small_uploads_large_proxies (envOfSize 50000000) douyinUrl "videos/k"
      [] 0 "" rfl rfl rfl rfl (by decide)).1 (by decide),
    by decide, h2.1 (by decide), h2.2.1, h2.2.2.1 (by decide), h2.2.2.2⟩

/-- C6 — confirmed.  With `isLivePhoto = true`, neither entry point ever
resolves with a proxy or raw address, whatever the file's size; and whenever
the live-photo fetch succeeds, `processMediaFile` reads the body and hands
the bytes straight to the hosting-backend upload (`uploadFile`), skipping
size detection entirely. -/
theorem C6_live_photo_never_proxied
    (env : String → Origin) (url storageKey : String) (opts : MediaOptions)
    (backupUrls : List String) (now : Nat) (fallbackSuffix : String)
    (hlive : opts.isLivePhoto = true) :
    (∀ u, (processMediaFile env url storageKey opts now fallbackSuffix).1 ≠
      .proxied u) ∧
    (∀ u, (processMediaFile env url storageKey opts now fallbackSuffix).1 ≠
      .raw u) ∧
    (∀ u, (processMediaFileWithParseData env url storageKey opts backupUrls now
      fallbackSuffix).1 ≠ .proxied u) ∧
    (∀ u, (processMediaFileWithParseData env url storageKey opts backupUrls now
      fallbackSuffix).1 ≠ .raw u) ∧
    ((env url).getOk = true →
      processMediaFile env url storageKey opts now fallbackSuffix =
        (uploadFile (env url).size storageKey,
          [.getRequest url, .bodyRead url (env url).size])) := by
  have hne := uploadFile_ne_proxied_raw (env url).size storageKey
  have hshape : (processMediaFileWithParseData env url storageKey opts backupUrls
        now fallbackSuffix).1 = .failed .sizeUnknown ∨
      (processMediaFileWithParseData env url storageKey opts backupUrls now
        fallbackSuffix).1 = .failed .fetchFailed ∨
      (processMediaFileWithParseData env url storageKey opts backupUrls now
        fallbackSuffix).1 = uploadFile (env url).size storageKey := by
    by_cases hp : ((env url).headOk && (env url).headHasLength) = true
    · by_cases h0 : (env url).size = 0
      · simp [processMediaFileWithParseData, hp, h0]
      · by_cases hget : (env url).getOk = true <;>
          simp [processMediaFileWithParseData, hp, h0, hget, hlive]
    · simp [processMediaFileWithParseData, Bool.not_eq_true _ ▸ hp]
  refine ⟨?_, ?_, ?_, ?_, ?_⟩
  · intro u
    by_cases hget : (env url).getOk = true <;>
      simp [processMediaFile, hlive, hget, hne.1 u]
  · intro u
    by_cases hget : (env url).getOk = true <;>
      simp [processMediaFile, hlive, hget, hne.2 u]
  · intro u
    rcases hshape with h | h | h <;> rw [h] <;> simp [hne.1 u]
  · intro u
    rcases hshape with h | h | h <;> rw [h] <;> simp [hne.2 u]
  · intro hget
    simp [processMediaFile, hlive, hget]

/-- C6 — witness: a 200 MiB live-photo video at a douyin origin is still
fetched and uploaded (here: rejected by the host's own size ceiling), never
proxied. -/
theorem C6_witness :
    (∀ u, (processMediaFile (envOfSize 209715200) douyinUrl "videos/k"
        { isLivePhoto := true } 0 "").1 ≠ .proxied u) ∧
    (∀ u, (processMediaFile (envOfSize 209715200) douyinUrl "videos/k"
        { isLivePhoto := true } 0 "").1 ≠ .raw u) ∧
    (∀ u, (processMediaFileWithParseData (envOfSize 209715200) douyinUrl "videos/k"
        { isLivePhoto := true } [] 0 "").1 ≠ .proxied u) ∧
    (∀ u, (processMediaFileWithParseData (envOfSize 209715200) douyinUrl "videos/k"
        { isLivePhoto := true } [] 0 "").1 ≠ .raw u) ∧
    ((envOfSize 209715200 douyinUrl).getOk = true →
      processMediaFile (envOfSize 209715200) douyinUrl "videos/k"
          { isLivePhoto := true } 0 "" =
        (uploadFile (envOfSize 209715200 douyinUrl).size "videos/k",
          [.getRequest douyinUrl, .bodyRead douyinUrl (envOfSize 209715200 douyinUrl).size])) :=
  C6_live_photo_never_proxied (envOfSize 209715200) douyinUrl "videos/k"
    { isLivePhoto := true } [] 0 "" rfl

/-- C10 — confirmed.  For a non-live item probing strictly between the
100 MiB chunked-upload ceiling and the 110 MiB routing threshold,
`processMediaFile` chooses the direct-upload path (size below threshold),
`uploadFile` routes anything above 19 MiB through chunked upload, and
chunked upload rejects anything above 100 MiB — so the call always throws
and no address of any kind is returned. -/
theorem C10_gap_sizes_always_fail
    (env : String → Origin) (url storageKey : String)
    (now : Nat) (fallbackSuffix : String)
    (hget : (env url).getOk = true)
    (hgl : (env url).getHasLength = true)
    (hlo : CHUNKED_UPLOAD_LIMIT < (env url).size)
    (hhi : (env url).size < FILE_SIZE_THRESHOLD) :
    LARGE_FILE_THRESHOLD < (env url).size ∧
    uploadFile (env url).size storageKey = .failed .uploadTooLarge ∧
    (processMediaFile env url storageKey {} now fallbackSuffix).1 =
      .failed .uploadTooLarge := by
  have h19 : LARGE_FILE_THRESHOLD < CHUNKED_UPLOAD_LIMIT := by decide
  have hup := uploadFile_over_limit (env url).size storageKey hlo
  have hns : ¬ (env url).size = 0 := by omega
  have hlt : ¬ (env url).size ≥ FILE_SIZE_THRESHOLD := by omega
  refine ⟨by omega, hup, ?_⟩
  simp [processMediaFile, hget, hgl, hns, hlt, hup]

/-- C10 — witness at a concrete 105 MiB douyin origin. -/
theorem C10_witness :
    LARGE_FILE_THRESHOLD < (envOfSize 110100480 douyinUrl).size ∧
    uploadFile (envOfSize 110100480 douyinUrl).size "videos/k" =
      .failed .uploadTooLarge ∧
    (processMediaFile (envOfSize 110100480) douyinUrl "videos/k" {} 0 "").1 =
      .failed .uploadTooLarge :=
  C10_gap_sizes_always_fail (envOfSize 110100480) douyinUrl "videos/k"
    0 "" rfl rfl (by decide) (by decide)

/-! ## Chunk splitting (`ImageHostService.uploadFileWithChunking`) -/

/-- Number of chunks: `totalChunks = Math.ceil(fileSize / CHUNK_SIZE)`. -/
def totalChunksFor (fileSize : Nat) : Nat := jsCeilDiv fileSize CHUNK_SIZE

/-- Chunk `i` of a payload: the loop computes `start = i * CHUNK_SIZE`,
`end = Math.min(start + CHUNK_SIZE, fileSize)` and slices
`arrayBuffer.slice(start, end)`. -/
def chunkData {α : Type _} (bytes : List α) (i : Nat) : List α :=
  let start := i * CHUNK_SIZE
  let stop := min (start + CHUNK_SIZE) bytes.length
  (bytes.drop start).take (stop - start)

/-- Sequence of chunk payloads uploaded by `uploadFileWithChunking`, in
ascending index order `0, 1, ..., totalChunks - 1`. -/
def chunksOf {α : Type _} (bytes : List α) : List (List α) :=
  (List.range (totalChunksFor bytes.length)).map (chunkData bytes)

/-- The slice bound `min (start + CHUNK_SIZE) fileSize` never cuts more than
`CHUNK_SIZE` elements, so every chunk is a plain take-after-drop. -/
theorem chunkData_eq_take {α : Type _} (bytes : List α) (i : Nat) :
    chunkData bytes i = (bytes.drop (i * CHUNK_SIZE)).take CHUNK_SIZE := by
  simp only [chunkData]
  rcases le_or_lt (i * CHUNK_SIZE + CHUNK_SIZE) bytes.length with h | h
  · rw [min_eq_left h]
    congr 1
    omega
  · rw [min_eq_right (Nat.le_of_lt h)]
    have hlen : (bytes.drop (i * CHUNK_SIZE)).length = bytes.length - i * CHUNK_SIZE :=
      List.length_drop _ _
    rw [List.take_of_length_le (by omega), List.take_of_length_le (by omega)]

/-- Length of chunk `i`. -/
theorem chunkData_length {α : Type _} (bytes : List α) (i : Nat) :
    (chunkData bytes i).length =
      min (i * CHUNK_SIZE + CHUNK_SIZE) bytes.length - i * CHUNK_SIZE := by
  simp only [chunkData, List.length_take, List.length_drop]
  omega

/-- One chunk-count step of the ceiling division. -/
theorem totalChunksFor_succ (n : Nat) (h : 0 < n) :
    totalChunksFor n = totalChunksFor (n - CHUNK_SIZE) + 1 := by
  simp only [totalChunksFor, jsCeilDiv, CHUNK_SIZE]
  omega

/-- Concatenating the chunks in ascending index order reconstructs the
payload. -/
theorem chunksOf_flatten {α : Type _} (bytes : List α) :
    (chunksOf bytes).flatten = bytes := by
  generalize hn : bytes.length = n
  induction n using Nat.strong_induction_on generalizing bytes with
  | _ n ih =>
    rcases Nat.eq_zero_or_pos n with rfl | hpos
    · have hb : bytes = [] := List.eq_nil_of_length_eq_zero hn
      subst hb
      have h0 : totalChunksFor 0 = 0 := by
        simp only [totalChunksFor, jsCeilDiv, CHUNK_SIZE]
      simp [chunksOf, h0]
    · unfold chunksOf
      rw [hn, totalChunksFor_succ n hpos, List.range_succ_eq_map, List.map_cons,
        List.flatten_cons, List.map_map]
      have hstep : (chunkData bytes ∘ Nat.succ) = chunkData (bytes.drop CHUNK_SIZE) := by
        funext i
        show chunkData bytes (i + 1) = chunkData (bytes.drop CHUNK_SIZE) i
        have harith : (i + 1) * CHUNK_SIZE = CHUNK_SIZE + i * CHUNK_SIZE := by ring
        rw [chunkData_eq_take, chunkData_eq_take, List.drop_drop, harith]
      rw [hstep]
      have hlen : (bytes.drop CHUNK_SIZE).length = n - CHUNK_SIZE := by
        rw [List.length_drop, hn]
      have hrec : (chunksOf (bytes.drop CHUNK_SIZE)).flatten = bytes.drop CHUNK_SIZE :=
        ih (n - CHUNK_SIZE) (Nat.sub_lt hpos (by decide)) _ hlen
      unfold chunksOf at hrec
      rw [hlen] at hrec
      rw [hrec]
      have h0 : chunkData bytes 0 = bytes.take CHUNK_SIZE := by
        rw [chunkData_eq_take]
        simp
      rw [h0, List.take_append_drop]

/-- C9 — counterexample.  The uploader's chunk size is
`CHUNK_SIZE = 10 * 1024 * 1024 = 10485760`, not the claim's
`C = 10_000_000`; e.g. a 20 500 000-byte payload is split into 2 chunks,
while `ceil(S / 10_000_000)` would demand 3. -/
theorem C9_counterexample :
    CHUNK_SIZE = 10485760 ∧ ¬ CHUNK_SIZE = 10000000 ∧
    totalChunksFor 20500000 = 2 ∧ jsCeilDiv 20500000 10000000 = 3 := by
  decide

/-- C9 — amended.  With the uploader's actual chunk size
`C = CHUNK_SIZE = 10 MiB = 10_485_760`: the number of chunks is
`ceil(S / C)`, chunk `i` covers exactly the byte range
`[i*C, min((i+1)*C, S))`, and concatenating the chunks in ascending index
order reconstructs the original `S` bytes; in particular for
`S = 25_000_000` there are 3 chunks and the last one is partial
(4 028 480 bytes). -/
theorem C9_chunk_split (bytes : List Nat) :
    (chunksOf bytes).length = jsCeilDiv bytes.length CHUNK_SIZE ∧
    (∀ i, chunkData bytes i =
        (bytes.drop (i * CHUNK_SIZE)).take
          (min ((i + 1) * CHUNK_SIZE) bytes.length - i * CHUNK_SIZE)) ∧
    (chunksOf bytes).flatten = bytes ∧
    (bytes.length = 25000000 →
      (chunksOf bytes).length = 3 ∧
      (chunkData bytes 2).length = 4028480 ∧
      (chunkData bytes 2).length < CHUNK_SIZE) := by
  have hlen : (chunksOf bytes).length = jsCeilDiv bytes.length CHUNK_SIZE := by
    simp [chunksOf, totalChunksFor]
  refine ⟨hlen, ?_, chunksOf_flatten bytes, ?_⟩
  · intro i
    have harith : (i + 1) * CHUNK_SIZE = i * CHUNK_SIZE + CHUNK_SIZE := by ring
    simp only [chunkData, harith]
  · intro h25
    have hc : CHUNK_SIZE = 10485760 := rfl
    refine ⟨?_, ?_, ?_⟩
    · rw [hlen, h25]
      simp only [jsCeilDiv, hc]
    · rw [chunkData_length, h25, hc]
      omega
    · rw [chunkData_length, h25, hc]
      omega

/-- C9 — witness for the amended theorem at a concrete 25 000 000-byte
payload. -/
theorem C9_witness :
    (List.replicate 25000000 (0 : Nat)).length = 25000000 ∧
    ((chunksOf (List.replicate 25000000 (0 : Nat))).length = 3 ∧
      (chunkData (List.replicate 25000000 (0 : Nat)) 2).length = 4028480 ∧
      (chunkData (List.replicate 25000000 (0 : Nat)) 2).length < CHUNK_SIZE) :=
  ⟨List.length_replicate 25000000 0,
    (C9_chunk_split (List.replicate 25000000 0)).2.2.2 (List.length_replicate 25000000 0)⟩


/-- C7 — amended.  `validateProxyUrl` does reject any token whose embedded
(nonempty) signature differs from the one recomputed over
`original|filename|timestamp`.  (The claim's second half — that any
single-byte mutation of a minted token that still decodes fails
verification — is false: a mutation confined to a field outside the signed
triple, such as `source`, still validates; see the counterexample, which
also shows the serving worker's `parseProxyRequest` accepts such a token,
as it never checks signatures at all.) -/
theorem C7_signature_mismatch_rejected
    (now : Nat) (maxAge : Int) (tok : String) (m : ProxyMetadata) (sig : String)
    (hparse : parseProxyUrl tok = some m)
    (hsig : m.signature = some sig)
    (hne : ¬ sig = "")
    (hmismatch : ¬ sig = generateSignature
      (signatureData m.original m.filename m.timestamp)) :
    validateProxyUrl now tok maxAge = false := by
  unfold validateProxyUrl
  rw [hparse]
  simp only [hsig]
  split
  · rfl
  · simp [hne, hmismatch]

/-- Metadata of a token carrying a wrong signature. -/
def badSigMetadata : ProxyMetadata :=
  { original := "https://v.douyin.com/abc.mp4", filename := "abc.mp4"
    timestamp := 1700000000000, source := "douyin", backupUrls := []
    signature := some "deadbeef" }

/-- Proxy URL embedding `badSigMetadata`. -/
def badSigToken : String :=
  PROXY_WORKER_URL ++ "/proxy/" ++ PROXY_VERSION ++ "/" ++
    String.mk ((btoa ((metadataJson badSigMetadata).map Char.toNat)).getD [])

set_option maxRecDepth 40000 in
/-- C7 — witness for the amended theorem at a concrete tampered-signature
token. -/
theorem C7_witness :
    parseProxyUrl badSigToken = some badSigMetadata ∧
    badSigMetadata.signature = some "deadbeef" ∧
    ¬ "deadbeef" = "" ∧
    ¬ "deadbeef" = generateSignature
      (signatureData badSigMetadata.original badSigMetadata.filename
        badSigMetadata.timestamp) ∧
    validateProxyUrl 1700000000001 badSigToken 86400000 = false :=
  ⟨by decide, rfl, by decide, by decide,
    C7_signature_mismatch_rejected 1700000000001 86400000 badSigToken
      badSigMetadata "deadbeef" (by decide) rfl (by decide) (by decide)⟩

/-- Token minted by `createProxyUrl` for a douyin URL at a fixed time. -/
def mintedProxyToken : String :=
  createProxyUrl "https://v.douyin.com/abc.mp4" [] 1700000000000 "r0"

/-- `mintedProxyToken` with one character of the encoded token changed
(`'m'` to `'k'`, inside the base64 of the `source` field). -/
def mutatedProxyToken : String := String.mk (mintedProxyToken.toList.set 183 'k')

/-- Number of positions at which two equal-length character lists differ. -/
def countDiffs (a b : List Char) : Nat :=
  (List.zipWith (fun x y => if x = y then 0 else 1) a b).sum

set_option maxRecDepth 40000 in
/-- C7 — counterexample.  A single-character mutation of a minted token
that still decodes (it changes only the `source` field, `douyin` →
`Douyin`) passes `validateProxyUrl` — the signature covers only
`original|filename|timestamp` — and is likewise accepted by the serving
worker's `parseProxyRequest`, refuting the claim that any such mutation
causes verification to fail. -/
theorem C7_counterexample :
    mutatedProxyToken.toList.length = mintedProxyToken.toList.length ∧
    countDiffs mintedProxyToken.toList mutatedProxyToken.toList = 1 ∧
    ¬ parseProxyUrl mutatedProxyToken = parseProxyUrl mintedProxyToken ∧
    parseProxyUrl mutatedProxyToken =
      some { original := "https://v.douyin.com/abc.mp4", filename := "abc.mp4"
             timestamp := 1700000000000, source := "Douyin", backupUrls := []
             signature := some "ovnwqt" } ∧
    validateProxyUrl 1700000000000 mutatedProxyToken 86400000 = true ∧
    parseProxyRequest (String.mk (mutatedProxyToken.toList.drop 40)) =
      some { original := "https://v.douyin.com/abc.mp4", filename := "abc.mp4"
             timestamp := 1700000000000, source := "Douyin", backupUrls := []
             signature := some "ovnwqt" } := by
  refine ⟨by decide, by decide, by decide, by decide, by decide, by decide⟩

/-- Douyin URL with a query string whose minted token's base64 contains a
`/` character. -/
def slashUrl : String := "https://v.douyin.com/abc.mp4?x=1"

/-- Token minted for `slashUrl`. -/
def slashProxyToken : String := createProxyUrl slashUrl [] 1700000000000 "r0"

set_option maxRecDepth 40000 in
/-- C8 — counterexample.  For this proxy-capable origin URL the minted
token's base64 contains a `/` (the byte `'?'` falls at an offset divisible
into a `111111` sextet), so `parseProxyUrl`'s `pathname.split('/')` cuts
the token at that character, `atob`/`JSON.parse` fail on the truncated
piece, and decoding returns `null` instead of the encoded metadata. -/
theorem C8_counterexample :
    (detectPlatform slashUrl).supportsProxy = true ∧
    ¬ slashProxyToken = slashUrl ∧
    '/' ∈ slashProxyToken.toList.drop 50 ∧
    parseProxyUrl slashProxyToken = none := by
  refine ⟨by decide, by decide, by decide, by decide⟩

/-- Characters that `JSON.stringify` leaves untouched inside a string and
`btoa` accepts: printable, below 256, neither quote nor backslash. -/
def jsonPlainChar (c : Char) : Bool :=
  32 ≤ c.toNat && c.toNat < 256 && !(c = '"') && !(c = '\\')

/-- String of plain characters. -/
def jsonPlainStr (s : String) : Bool := s.toList.all jsonPlainChar

/-- Matching a literal against itself followed by anything succeeds. -/
theorem expectLit_append : ∀ (lit rest : List Char),
    expectLit lit (lit ++ rest) = some rest
  | [], _ => rfl
  | e :: es, rest => by
    simp only [List.cons_append, expectLit, if_pos rfl]
    exact expectLit_append es rest

/-- A plain character escapes to itself. -/
theorem jsonEscapeChar_plain {c : Char} (h : jsonPlainChar c = true) :
    jsonEscapeChar c = [c] := by
  simp only [jsonPlainChar, Bool.and_eq_true, Bool.not_eq_true', decide_eq_true_eq,
    decide_eq_false_iff_not] at h
  obtain ⟨⟨⟨h1, _⟩, h2⟩, h3⟩ := h
  have hb8 : ¬ c = '\x08' := fun hq => absurd h1 (by subst hq; decide)
  have hb9 : ¬ c = '\x09' := fun hq => absurd h1 (by subst hq; decide)
  have hba : ¬ c = '\x0a' := fun hq => absurd h1 (by subst hq; decide)
  have hbc : ¬ c = '\x0c' := fun hq => absurd h1 (by subst hq; decide)
  have hbd : ¬ c = '\x0d' := fun hq => absurd h1 (by subst hq; decide)
  have hlt : ¬ c.toNat < 32 := by omega
  simp only [jsonEscapeChar, if_neg h2, if_neg h3, if_neg hb8, if_neg hb9, if_neg hba,
    if_neg hbc, if_neg hbd, if_neg hlt]

/-- Escaping maps a plain character list to itself. -/
theorem flatten_escape_plain {l : List Char}
    (h : ∀ c ∈ l, jsonPlainChar c = true) :
    (l.map jsonEscapeChar).flatten = l := by
  induction l with
  | nil => rfl
  | cons c cs ih =>
    simp only [List.map_cons, List.flatten_cons,
      jsonEscapeChar_plain (h c (List.mem_cons_self _ _)), List.cons_append,
      List.cons.injEq, true_and]
    exact ih (fun x hx => h x (List.mem_cons_of_mem _ hx))

/-- A plain string is quoted verbatim. -/
theorem jsonQuote_plain {s : String} (h : jsonPlainStr s = true) :
    jsonQuote s = '"' :: s.toList ++ ['"'] := by
  simp only [jsonPlainStr, List.all_eq_true] at h
  simp only [jsonQuote, flatten_escape_plain h]

/-- Parsing a plain string body consumes it up to the closing quote. -/
theorem parseJsonStringBody_plain :
    ∀ {l : List Char}, (∀ c ∈ l, jsonPlainChar c = true) → ∀ (rest : List Char),
      parseJsonStringBody (l ++ '"' :: rest) = some (l, rest)
  | [], _, rest => by
    rw [List.nil_append, parseJsonStringBody.eq_def]
    simp
  | c :: cs, h, rest => by
    have hc : jsonPlainChar c = true := h c (List.mem_cons_self _ _)
    simp only [jsonPlainChar, Bool.and_eq_true, Bool.not_eq_true', decide_eq_true_eq,
      decide_eq_false_iff_not] at hc
    obtain ⟨⟨⟨h1, _⟩, h2⟩, h3⟩ := hc
    have hlt : ¬ c.toNat < 32 := by omega
    have ih := parseJsonStringBody_plain (fun x hx => h x (List.mem_cons_of_mem _ hx)) rest
    rw [List.cons_append, parseJsonStringBody.eq_def]
    simp only [if_neg h2, if_neg h3, if_neg hlt, ih]

/-- Parsing a quoted plain string returns it with the remainder. -/
theorem parseQuotedString_plain {s : String} (h : jsonPlainStr s = true)
    (rest : List Char) :
    parseQuotedString (jsonQuote s ++ rest) = some (s, rest) := by
  rw [jsonQuote_plain h]
  simp only [jsonPlainStr, List.all_eq_true] at h
  simp only [List.cons_append, parseQuotedString, if_pos rfl, List.append_assoc,
    List.cons_append, List.nil_append, parseJsonStringBody_plain h rest, Option.map_some]
  rfl

/-- Whatever its argument, `digitChar` yields a decimal digit character. -/
theorem digitChar_isDigit (k : Nat) : isDigitChar (digitChar k) = true := by
  unfold digitChar
  split_ifs <;> decide

/-- Whatever its argument, `digitChar` yields a plain character. -/
theorem digitChar_plain (k : Nat) : jsonPlainChar (digitChar k) = true := by
  unfold digitChar
  split_ifs <;> decide

/-- Code of a digit character below ten. -/
theorem digitChar_toNat {k : Nat} (h : k < 10) : (digitChar k).toNat = 48 + k := by
  unfold digitChar
  split_ifs with h0 h1 h2 h3 h4 h5 h6 h7 h8
  · subst h0; decide
  · subst h1; decide
  · subst h2; decide
  · subst h3; decide
  · subst h4; decide
  · subst h5; decide
  · subst h6; decide
  · subst h7; decide
  · subst h8; decide
  · have h9 : k = 9 := by omega
    subst h9; decide

/-- Every character produced by `natDigitsAux` is a digit character of a
value below ten. -/
theorem natDigitsAux_mem : ∀ (fuel n : Nat), n < fuel →
    ∀ c ∈ natDigitsAux fuel n, ∃ k, k < 10 ∧ c = digitChar k
  | 0, _, h, _, _ => absurd h (by omega)
  | fuel + 1, n, _, c, hc => by
    rw [natDigitsAux] at hc
    by_cases h10 : n < 10
    · rw [if_pos h10] at hc
      simp only [List.mem_singleton] at hc
      exact ⟨n, h10, hc⟩
    · rw [if_neg h10] at hc
      rcases List.mem_append.mp hc with hl | hr
      · exact natDigitsAux_mem fuel (n / 10) (by omega) c hl
      · simp only [List.mem_singleton] at hr
        exact ⟨n % 10, by omega, hr⟩

/-- Every character of `natDigits` is a decimal digit. -/
theorem natDigits_isDigit {n : Nat} : ∀ c ∈ natDigits n, isDigitChar c = true := by
  intro c hc
  obtain ⟨k, _, rfl⟩ := natDigitsAux_mem (n + 1) n (by omega) c hc
  exact digitChar_isDigit k

/-- Every character of `natDigits` is plain. -/
theorem natDigits_plain {n : Nat} : ∀ c ∈ natDigits n, jsonPlainChar c = true := by
  intro c hc
  obtain ⟨k, _, rfl⟩ := natDigitsAux_mem (n + 1) n (by omega) c hc
  exact digitChar_plain k

/-- `natDigitsAux` with positive fuel yields a nonempty list. -/
theorem natDigitsAux_ne_nil : ∀ (fuel n : Nat), 0 < fuel → natDigitsAux fuel n ≠ []
  | 0, _, h => absurd h (by omega)
  | fuel + 1, n, _ => by
    rw [natDigitsAux]
    split_ifs
    · simp
    · simp

/-- `natDigits` is nonempty. -/
theorem natDigits_ne_nil (n : Nat) : natDigits n ≠ [] :=
  natDigitsAux_ne_nil (n + 1) n (by omega)

/-- Folding the decimal-accumulation step over `natDigitsAux` recovers the
number (shifted under the accumulator). -/
theorem natDigitsAux_foldl : ∀ (fuel n : Nat), n < fuel → ∀ a : Nat,
    (natDigitsAux fuel n).foldl (fun acc c => acc * 10 + (c.toNat - 48)) a
      = a * 10 ^ (natDigitsAux fuel n).length + n
  | 0, _, h, _ => absurd h (by omega)
  | fuel + 1, n, hfuel, a => by
    rw [natDigitsAux]
    by_cases h10 : n < 10
    · rw [if_pos h10]
      simp only [List.foldl_cons, List.foldl_nil, List.length_singleton, pow_one]
      rw [digitChar_toNat h10]
      omega
    · rw [if_neg h10]
      rw [List.foldl_append]
      have hrec : n / 10 < fuel := by omega
      rw [natDigitsAux_foldl fuel (n / 10) hrec a]
      simp only [List.foldl_cons, List.foldl_nil, List.length_append,
        List.length_singleton]
      rw [digitChar_toNat (by omega : n % 10 < 10)]
      have hmod : n % 10 + 48 - 48 = n % 10 := by omega
      rw [pow_succ]
      have hdm : n / 10 * 10 + n % 10 = n := by omega
      calc (a * 10 ^ (natDigitsAux fuel (n / 10)).length + n / 10) * 10
            + (48 + n % 10 - 48)
          = a * (10 ^ (natDigitsAux fuel (n / 10)).length * 10)
            + (n / 10 * 10 + n % 10) := by ring_nf; omega
        _ = a * (10 ^ (natDigitsAux fuel (n / 10)).length * 10) + n := by rw [hdm]

/-- Folding the decimal-accumulation step over `natDigits n` from zero
recovers `n`. -/
theorem natDigits_foldl (n : Nat) :
    (natDigits n).foldl (fun acc c => acc * 10 + (c.toNat - 48)) 0 = n := by
  rw [natDigits, natDigitsAux_foldl (n + 1) n (by omega) 0]
  simp

/-- `takeWhile` walks through a prefix whose members all satisfy the
predicate. -/
theorem takeWhile_append_all {α : Type _} (p : α → Bool) :
    ∀ (l₁ l₂ : List α), (∀ c ∈ l₁, p c = true) →
      (l₁ ++ l₂).takeWhile p = l₁ ++ l₂.takeWhile p
  | [], _, _ => by simp
  | a :: l₁, l₂, h => by
    simp only [List.cons_append, List.takeWhile_cons, h a (List.mem_cons_self _ _),
      if_true, List.cons.injEq, true_and]
    exact takeWhile_append_all p l₁ l₂ (fun c hc => h c (List.mem_cons_of_mem _ hc))

/-- `dropWhile` skips a prefix whose members all satisfy the predicate. -/
theorem dropWhile_append_all {α : Type _} (p : α → Bool) :
    ∀ (l₁ l₂ : List α), (∀ c ∈ l₁, p c = true) →
      (l₁ ++ l₂).dropWhile p = l₂.dropWhile p
  | [], _, _ => by simp
  | a :: l₁, l₂, h => by
    simp only [List.cons_append, List.dropWhile_cons, h a (List.mem_cons_self _ _),
      if_true]
    exact dropWhile_append_all p l₁ l₂ (fun c hc => h c (List.mem_cons_of_mem _ hc))

/-- A list whose `takeWhile` is empty is untouched by `dropWhile`. -/
theorem dropWhile_eq_self_of_takeWhile_nil {α : Type _} {p : α → Bool} :
    ∀ {l : List α}, l.takeWhile p = [] → l.dropWhile p = l
  | [], _ => rfl
  | a :: l, h => by
    simp only [List.takeWhile_cons] at h
    by_cases hp : p a = true
    · rw [if_pos hp] at h; exact absurd h (by simp)
    · simp only [List.dropWhile_cons, hp]
      simp

/-- `parseNatRun` consumes exactly the decimal rendering of a number when
the remainder does not begin with a digit. -/
theorem parseNatRun_natDigits (n : Nat) (rest : List Char)
    (h : rest.takeWhile isDigitChar = []) :
    parseNatRun (natDigits n ++ rest) = some (n, rest) := by
  unfold parseNatRun
  rw [takeWhile_append_all isDigitChar (natDigits n) rest natDigits_isDigit, h,
    List.append_nil,
    dropWhile_append_all isDigitChar (natDigits n) rest natDigits_isDigit,
    dropWhile_eq_self_of_takeWhile_nil h]
  rw [if_neg (by simp [natDigits_ne_nil n])]
  rw [natDigits_foldl]

/-- Every character produced by `base36CharsAux` is a base-36 digit of a
value below 36. -/
theorem base36CharsAux_mem : ∀ (fuel n : Nat), n < fuel →
    ∀ c ∈ base36CharsAux fuel n, ∃ k, k < 36 ∧ c = base36Digit k
  | 0, _, h, _, _ => absurd h (by omega)
  | fuel + 1, n, _, c, hc => by
    rw [base36CharsAux] at hc
    by_cases h36 : n < 36
    · rw [if_pos h36] at hc
      simp only [List.mem_singleton] at hc
      exact ⟨n, h36, hc⟩
    · rw [if_neg h36] at hc
      rcases List.mem_append.mp hc with hl | hr
      · exact base36CharsAux_mem fuel (n / 36) (by omega) c hl
      · simp only [List.mem_singleton] at hr
        exact ⟨n % 36, by omega, hr⟩

/-- Base-36 digit characters are plain. -/
theorem base36Digit_plain : ∀ k, k < 36 → jsonPlainChar (base36Digit k) = true := by
  decide

/-- Every character of a generated signature is plain. -/
theorem generateSignature_plain (data : String) :
    jsonPlainStr (generateSignature data) = true := by
  unfold generateSignature jsonPlainStr
  rw [List.all_eq_true]
  intro c hc
  have hc' : c ∈ base36Chars ((utf16CodeUnits data).foldl hashStep 0).natAbs := hc
  rw [base36Chars] at hc'
  obtain ⟨k, hk, rfl⟩ := base36CharsAux_mem _ _ (by omega) c hc'
  exact base36Digit_plain k hk

/-- A `String.mk` is empty only on the empty character list. -/
theorem String_mk_ne_empty {l : List Char} (h : l ≠ []) : String.mk l ≠ "" := by
  intro he
  exact h (congrArg String.data he)

/-- Appending `.mp4` never yields the empty string. -/
theorem append_mp4_ne_empty (s : String) : s ++ ".mp4" ≠ "" := by
  intro he
  have hd := congrArg String.data he
  rw [String.data_append] at hd
  simp at hd

/-- Generated file names are never empty. -/
theorem generateFileName_ne_empty (u p f : String) : generateFileName u p f ≠ "" := by
  unfold generateFileName
  cases hp : pathnameOf u with
  | none =>
    have := append_mp4_ne_empty (p ++ "_video_" ++ f)
    simpa using this
  | some pathname =>
    dsimp only
    split_ifs with hcond
    · apply String_mk_ne_empty
      simp only [Bool.and_eq_true, Bool.not_eq_true'] at hcond
      intro he
      rw [he] at hcond
      simp [List.isEmpty] at hcond
    · have := append_mp4_ne_empty (p ++ "_video_" ++ f)
      simpa using this

/-- A proxy-capable URL is nonempty. -/
theorem url_ne_empty_of_supportsProxy {url : String}
    (h : (detectPlatform url).supportsProxy = true) : url ≠ "" := by
  intro he
  rw [he] at h
  exact absurd h (by decide)

/-- The `source` stored by minting on a proxy-capable platform is the
detected platform name, and it is plain and nonempty. -/
theorem minted_source_facts {url : String}
    (h : (detectPlatform url).supportsProxy = true) :
    (if (detectPlatform url).platform = "unknown" then "douyin"
      else (detectPlatform url).platform) = (detectPlatform url).platform ∧
    jsonPlainStr (detectPlatform url).platform = true ∧
    (detectPlatform url).platform ≠ "" := by
  rcases platform_of_supportsProxy h with hp | hp <;> rw [hp] <;>
    exact ⟨by decide, by decide, by decide⟩

/-- Sextets of a byte stream are six-bit values. -/
theorem btoaSextets_lt64 : ∀ {bytes : List Nat}, (∀ b ∈ bytes, b < 256) →
    ∀ v ∈ btoaSextets bytes, v < 64
  | [], _, v, hv => by simp [btoaSextets] at hv
  | [b], h, v, hv => by
    have hb : b < 256 := h b (by simp)
    simp only [btoaSextets, List.mem_cons, List.not_mem_nil, or_false] at hv
    rcases hv with rfl | rfl <;> omega
  | [b, c], h, v, hv => by
    have hb : b < 256 := h b (by simp)
    have hc : c < 256 := h c (by simp)
    simp only [btoaSextets, List.mem_cons, List.not_mem_nil, or_false] at hv
    rcases hv with rfl | rfl | rfl <;> omega
  | b :: c :: d :: rest, h, v, hv => by
    have hb : b < 256 := h b (by simp)
    have hc : c < 256 := h c (by simp)
    have hd : d < 256 := h d (by simp)
    rw [btoaSextets] at hv
    simp only [List.mem_cons] at hv
    rcases hv with rfl | rfl | rfl | rfl | hmem
    · omega
    · omega
    · omega
    · omega
    · exact btoaSextets_lt64 (fun x hx => h x (by simp [hx])) v hmem

/-- Decoding inverts the sextet encoding of a byte stream. -/
theorem atobDecode_btoaSextets : ∀ {bytes : List Nat}, (∀ b ∈ bytes, b < 256) →
    atobDecode (btoaSextets bytes) = bytes
  | [], _ => rfl
  | [b], h => by
    have hb : b < 256 := h b (by simp)
    show atobDecode [b / 4, b % 4 * 16] = [b]
    simp only [atobDecode, List.cons.injEq, and_true]
    omega
  | [b, c], h => by
    have hb : b < 256 := h b (by simp)
    have hc : c < 256 := h c (by simp)
    show atobDecode [b / 4, b % 4 * 16 + c / 16, c % 16 * 4] = [b, c]
    simp only [atobDecode, List.cons.injEq, and_true]
    omega
  | b :: c :: d :: rest, h => by
    have hb : b < 256 := h b (by simp)
    have hc : c < 256 := h c (by simp)
    have hd : d < 256 := h d (by simp)
    have ih := atobDecode_btoaSextets
      (fun x hx => h x (List.mem_cons_of_mem _ (List.mem_cons_of_mem _
        (List.mem_cons_of_mem _ hx))))
    rw [btoaSextets, atobDecode, ih]
    simp only [List.cons.injEq, and_true]
    omega

/-- Six-bit values encode to characters distinct from `=`, `?`, `#`
and the path separator only when the value is not 63. -/
theorem b64Char_ne : ∀ v, v < 64 →
    b64Char v ≠ '=' ∧ b64Char v ≠ '?' ∧ b64Char v ≠ '#' := by decide

/-- `b64Value` inverts `b64Char` on six-bit values. -/
theorem b64Value_b64Char : ∀ v, v < 64 → b64Value (b64Char v) = some v := by decide

/-- Mapping `b64Value` over an encoded sextet stream recovers it. -/
theorem mapM_b64Value : ∀ {l : List Nat}, (∀ v ∈ l, v < 64) →
    (l.map b64Char).mapM b64Value = some l
  | [], _ => rfl
  | v :: l, h => by
    rw [List.map_cons, List.mapM_cons, b64Value_b64Char v (h v (by simp)),
      mapM_b64Value (fun x hx => h x (by simp [hx]))]
    rfl

/-- The sextet count of a byte stream is never `1 (mod 4)`. -/
theorem btoaSextets_length_mod : ∀ (bytes : List Nat),
    (btoaSextets bytes).length % 4 ≠ 1
  | [] => by simp [btoaSextets]
  | [_] => by simp [btoaSextets]
  | [_, _] => by simp [btoaSextets]
  | _ :: _ :: _ :: rest => by
    have ih := btoaSextets_length_mod rest
    rw [btoaSextets]
    simp only [List.length_cons]
    omega

/-- The padding-free part of an encoded token contains no `=`. -/
theorem eq_not_mem_core {bytes : List Nat} (h : ∀ b ∈ bytes, b < 256) :
    '=' ∉ (btoaSextets bytes).map b64Char := by
  intro hmem
  obtain ⟨v, hv, he⟩ := List.mem_map.mp hmem
  exact absurd he (b64Char_ne v (btoaSextets_lt64 h v hv)).1

/-- Stripping two padding characters. -/
theorem stripB64Padding_two (core : List Char) :
    stripB64Padding (core ++ ['=', '=']) = core := by
  unfold stripB64Padding
  have hrev : (core ++ ['=', '=']).reverse = '=' :: '=' :: core.reverse := by simp
  rw [hrev]
  simp

/-- Stripping one padding character from an `=`-free core. -/
theorem stripB64Padding_one {core : List Char} (h : '=' ∉ core) :
    stripB64Padding (core ++ ['=']) = core := by
  unfold stripB64Padding
  have hrev : (core ++ ['=']).reverse = '=' :: core.reverse := by simp
  rw [hrev]
  cases hcr : core.reverse with
  | nil =>
    have : core = [] := by simpa using congrArg List.reverse hcr
    simp [this]
  | cons a t =>
    have ha : ¬ a = '=' := by
      intro hae
      apply h
      rw [← List.mem_reverse, hcr, hae]
      exact List.mem_cons_self _ _
    split
    · rename_i r heq
      rw [List.cons.injEq, List.cons.injEq] at heq
      exact absurd heq.2.1 ha
    · rename_i r heq
      rw [List.cons.injEq] at heq
      rw [← heq.2, ← hcr]
      simp
    · rename_i hne1 hne2
      exact absurd rfl (hne2 (a :: t))

/-- Stripping no padding from an `=`-free core. -/
theorem stripB64Padding_zero {core : List Char} (h : '=' ∉ core) :
    stripB64Padding core = core := by
  unfold stripB64Padding
  split
  · rename_i r heq
    exact absurd (by rw [← List.mem_reverse, heq]; simp) h
  · rename_i r heq
    exact absurd (by rw [← List.mem_reverse, heq]; simp) h
  · rfl

/-- Stripping the padding emitted by `btoa` recovers the `=`-free core. -/
theorem stripB64Padding_append {core : List Char} (h : '=' ∉ core) (n : Nat) :
    stripB64Padding (core ++ b64Padding n) = core := by
  unfold b64Padding
  rcases hm : n % 3 with _ | m
  · simpa using stripB64Padding_zero h
  · rcases m with _ | k
    · exact stripB64Padding_two core
    · exact stripB64Padding_one h

/-- `atob` inverts `btoa`'s encoding of a byte stream. -/
theorem atob_btoa {bytes : List Nat} (h : ∀ b ∈ bytes, b < 256) :
    atob ((btoaSextets bytes).map b64Char ++ b64Padding bytes.length) = some bytes := by
  simp only [atob]
  rw [stripB64Padding_append (eq_not_mem_core h) bytes.length]
  rw [if_neg (by simpa using btoaSextets_length_mod bytes)]
  rw [mapM_b64Value (btoaSextets_lt64 h)]
  dsimp only
  rw [atobDecode_btoaSextets h]

/-- `btoa` succeeds on byte values below 256, yielding the encoded core
plus padding. -/
theorem btoa_eq {bytes : List Nat} (h : ∀ b ∈ bytes, b < 256) :
    btoa bytes = some ((btoaSextets bytes).map b64Char ++ b64Padding bytes.length) := by
  unfold btoa
  rw [if_pos]
  rw [List.all_eq_true]
  intro x hx
  simpa using h x hx

/-- `parseSigEnd` accepts a bare closing brace as an absent signature. -/
theorem parseSigEnd_none : parseSigEnd ['\x7d'] = some none := by
  unfold parseSigEnd
  rw [if_pos rfl]

/-- `parseSigEnd` recovers a plain signature field. -/
theorem parseSigEnd_some {s : String} (hs : jsonPlainStr s = true) :
    parseSigEnd ((",\"signature\":").toList ++ (jsonQuote s ++ ['\x7d']))
      = some (some s) := by
  unfold parseSigEnd
  rw [if_neg ?hne]
  case hne =>
    intro heq
    have h0 := congrArg List.head? heq
    rw [show (",\"signature\":").toList = ',' :: ("\"signature\":").toList from rfl] at h0
    simp at h0
  rw [expectLit_append]
  dsimp only
  rw [parseQuotedString_plain hs ['\x7d']]
  dsimp only
  rw [if_pos rfl]

/-- The `backupUrls` literal never matches a tail that starts with the
`signature` field. -/
theorem expectLit_backupUrls_sig (X : List Char) :
    expectLit (",\"backupUrls\":[").toList ((",\"signature\":").toList ++ X) = none := by
  show expectLit (',' :: '"' :: 'b' :: ("ackupUrls\":[").toList)
      (',' :: '"' :: 's' :: (("ignature\":").toList ++ X)) = none
  rw [expectLit, if_pos rfl, expectLit, if_pos rfl, expectLit, if_neg (by decide)]

/-- `parseOptionalTail` on a tail without a `backupUrls` field defers to
`parseSigEnd` and reports no backups. -/
theorem parseOptionalTail_empty_backups {tail : List Char}
    (hhead : expectLit (",\"backupUrls\":[").toList tail = none)
    {sig : Option String} (hsigend : parseSigEnd tail = some sig) :
    parseOptionalTail tail = some ([], sig) := by
  unfold parseOptionalTail
  rw [hhead]
  dsimp only
  rw [hsigend]
  rfl

/-- Parsing inverts serialization on a backup-free metadata record with
plain string fields. -/
theorem parseMetadataJson_metadataJson {m : ProxyMetadata}
    (hb : m.backupUrls = [])
    (ho : jsonPlainStr m.original = true)
    (hf : jsonPlainStr m.filename = true)
    (hs : jsonPlainStr m.source = true)
    (hsig : ∀ s, m.signature = some s → jsonPlainStr s = true) :
    parseMetadataJson (metadataJson m) = some m := by
  obtain ⟨o, fn, ts, src, bu, sg⟩ := m
  simp only at ho hf hs hsig hb
  subst hb
  cases sg with
  | none =>
    have hjson : metadataJson ⟨o, fn, ts, src, [], none⟩
        = ("\x7b\"original\":").toList ++ (jsonQuote o
          ++ ((",\"filename\":").toList ++ (jsonQuote fn
          ++ ((",\"timestamp\":").toList ++ (natDigits ts
          ++ ((",\"source\":").toList ++ (jsonQuote src
          ++ ['\x7d']))))))) := by
      simp [metadataJson, List.append_assoc]
    rw [hjson]
    unfold parseMetadataJson
    rw [expectLit_append]
    dsimp only
    rw [parseQuotedString_plain ho]
    dsimp only
    rw [expectLit_append]
    dsimp only
    rw [parseQuotedString_plain hf]
    dsimp only
    rw [expectLit_append]
    dsimp only
    rw [parseNatRun_natDigits ts _ (by rfl)]
    dsimp only
    rw [expectLit_append]
    dsimp only
    rw [parseQuotedString_plain hs]
    dsimp only
    rw [parseOptionalTail_empty_backups (by decide) parseSigEnd_none]
  | some s =>
    have hsp : jsonPlainStr s = true := hsig s rfl
    have hjson : metadataJson ⟨o, fn, ts, src, [], some s⟩
        = ("\x7b\"original\":").toList ++ (jsonQuote o
          ++ ((",\"filename\":").toList ++ (jsonQuote fn
          ++ ((",\"timestamp\":").toList ++ (natDigits ts
          ++ ((",\"source\":").toList ++ (jsonQuote src
          ++ ((",\"signature\":").toList ++ (jsonQuote s
          ++ ['\x7d']))))))))) := by
      simp [metadataJson, List.append_assoc]
    rw [hjson]
    unfold parseMetadataJson
    rw [expectLit_append]
    dsimp only
    rw [parseQuotedString_plain ho]
    dsimp only
    rw [expectLit_append]
    dsimp only
    rw [parseQuotedString_plain hf]
    dsimp only
    rw [expectLit_append]
    dsimp only
    rw [parseNatRun_natDigits ts _ (by rfl)]
    dsimp only
    rw [expectLit_append]
    dsimp only
    rw [parseQuotedString_plain hs]
    dsimp only
    rw [parseOptionalTail_empty_backups (expectLit_backupUrls_sig _)
      (parseSigEnd_some hsp)]

/-- A list all of whose members satisfy the predicate is its own
`takeWhile`. -/
theorem takeWhile_eq_self_of_all {α : Type _} {p : α → Bool} {l : List α}
    (h : ∀ c ∈ l, p c = true) : l.takeWhile p = l := by
  have := takeWhile_append_all p l [] h
  simpa using this

/-- Splitting a separator-free list yields that single part. -/
theorem splitOnChar_nosep (sep : Char) : ∀ (l : List Char), sep ∉ l →
    splitOnChar sep l = [l]
  | [], _ => rfl
  | c :: l, h => by
    have hc : ¬ c = sep := fun he => h (he ▸ List.mem_cons_self _ _)
    simp only [splitOnChar, if_neg hc]
    rw [splitOnChar_nosep sep l (fun hm => h (List.mem_cons_of_mem _ hm))]

/-- Splitting at a leading separator emits an empty part. -/
theorem splitOnChar_sep_cons (sep : Char) (l : List Char) :
    splitOnChar sep (sep :: l) = [] :: splitOnChar sep l := by
  simp [splitOnChar]

/-- Splitting walks over a separator-free prefix up to the next
separator. -/
theorem splitOnChar_nosep_append (sep : Char) :
    ∀ (l₁ l₂ : List Char), sep ∉ l₁ →
      splitOnChar sep (l₁ ++ sep :: l₂) = l₁ :: splitOnChar sep l₂
  | [], l₂, _ => by simp [splitOnChar_sep_cons]
  | c :: l₁, l₂, h => by
    have hc : ¬ c = sep := fun he => h (he ▸ List.mem_cons_self _ _)
    simp only [List.cons_append, splitOnChar, if_neg hc, List.append_eq]
    rw [splitOnChar_nosep_append sep l₁ l₂ (fun hm => h (List.mem_cons_of_mem _ hm))]

/-- Pathname of a minted proxy URL: the fixed `/proxy/v1/` segment plus the
encoded token (provided the token holds no query or fragment starter). -/
theorem pathnameOf_minted (enc : List Char)
    (hq : ∀ c ∈ enc, (!(c = '?' || c = '#')) = true) :
    pathnameOf (PROXY_WORKER_URL ++ "/proxy/" ++ PROXY_VERSION ++ "/" ++ String.mk enc)
      = some (String.mk ('/' :: ("proxy/v1/").toList ++ enc)) := by
  have h1 : pathnameOf (PROXY_WORKER_URL ++ "/proxy/" ++ PROXY_VERSION ++ "/"
        ++ String.mk enc)
      = some (String.mk ('/' :: ("proxy/v1/").toList
          ++ enc.takeWhile (fun c => !(c = '?' || c = '#')))) := rfl
  rw [h1, takeWhile_eq_self_of_all hq]

/-- Every padding character is `=`. -/
theorem mem_b64Padding {c : Char} {n : Nat} (h : c ∈ b64Padding n) : c = '=' := by
  unfold b64Padding at h
  rcases hm : n % 3 with _ | m
  · rw [hm] at h; simp at h
  · rcases m with _ | k
    · rw [hm] at h; simpa using h
    · rw [hm] at h; simpa using h

/-- Plain characters are below 256. -/
theorem plain_lt256 {c : Char} (h : jsonPlainChar c = true) : c.toNat < 256 := by
  simp only [jsonPlainChar, Bool.and_eq_true, decide_eq_true_eq] at h
  exact h.1.1.2

/-- Characters of a quoted plain string are below 256. -/
theorem mem_jsonQuote_lt256 {s : String} (hp : jsonPlainStr s = true) {c : Char}
    (hc : c ∈ jsonQuote s) : c.toNat < 256 := by
  rw [jsonQuote_plain hp] at hc
  simp only [jsonPlainStr, List.all_eq_true] at hp
  simp only [List.mem_cons, List.mem_append, List.mem_singleton,
    List.not_mem_nil, or_false] at hc
  rcases hc with (rfl | hc) | rfl
  · decide
  · exact plain_lt256 (hp c hc)
  · decide

/-- Serialized shape of a backup-free, unsigned record. -/
theorem metadataJson_shape_none (o fn : String) (ts : Nat) (src : String) :
    metadataJson ⟨o, fn, ts, src, [], none⟩
      = ("\x7b\"original\":").toList ++ (jsonQuote o
        ++ ((",\"filename\":").toList ++ (jsonQuote fn
        ++ ((",\"timestamp\":").toList ++ (natDigits ts
        ++ ((",\"source\":").toList ++ (jsonQuote src
        ++ ['\x7d']))))))) := by
  simp [metadataJson, List.append_assoc]

/-- Serialized shape of a backup-free, signed record. -/
theorem metadataJson_shape_some (o fn : String) (ts : Nat) (src s : String) :
    metadataJson ⟨o, fn, ts, src, [], some s⟩
      = ("\x7b\"original\":").toList ++ (jsonQuote o
        ++ ((",\"filename\":").toList ++ (jsonQuote fn
        ++ ((",\"timestamp\":").toList ++ (natDigits ts
        ++ ((",\"source\":").toList ++ (jsonQuote src
        ++ ((",\"signature\":").toList ++ (jsonQuote s
        ++ ['\x7d']))))))))) := by
  simp [metadataJson, List.append_assoc]

/-- All bytes of the serialized record are below 256 (so `btoa` accepts
them) when the string fields are plain. -/
theorem metadataJson_lt256 {m : ProxyMetadata}
    (hb : m.backupUrls = [])
    (ho : jsonPlainStr m.original = true)
    (hf : jsonPlainStr m.filename = true)
    (hs : jsonPlainStr m.source = true)
    (hsig : ∀ s, m.signature = some s → jsonPlainStr s = true) :
    ∀ c ∈ metadataJson m, c.toNat < 256 := by
  intro c hc
  obtain ⟨o, fn, ts, src, bu, sg⟩ := m
  simp only at ho hf hs hsig hb hc
  subst hb
  cases sg with
  | none =>
    rw [metadataJson_shape_none] at hc
    simp only [List.mem_append, List.mem_cons, List.not_mem_nil, or_false] at hc
    rcases hc with hc | hc | hc | hc | hc | hc | hc | hc | hc
    · exact (by decide : ∀ x ∈ ("\x7b\"original\":").toList, x.toNat < 256) c hc
    · exact mem_jsonQuote_lt256 ho hc
    · exact (by decide : ∀ x ∈ (",\"filename\":").toList, x.toNat < 256) c hc
    · exact mem_jsonQuote_lt256 hf hc
    · exact (by decide : ∀ x ∈ (",\"timestamp\":").toList, x.toNat < 256) c hc
    · exact plain_lt256 (natDigits_plain c hc)
    · exact (by decide : ∀ x ∈ (",\"source\":").toList, x.toNat < 256) c hc
    · exact mem_jsonQuote_lt256 hs hc
    · subst hc; decide
  | some s =>
    have hsp : jsonPlainStr s = true := hsig s rfl
    rw [metadataJson_shape_some] at hc
    simp only [List.mem_append, List.mem_cons, List.not_mem_nil, or_false] at hc
    rcases hc with hc | hc | hc | hc | hc | hc | hc | hc | hc | hc | hc
    · exact (by decide : ∀ x ∈ ("\x7b\"original\":").toList, x.toNat < 256) c hc
    · exact mem_jsonQuote_lt256 ho hc
    · exact (by decide : ∀ x ∈ (",\"filename\":").toList, x.toNat < 256) c hc
    · exact mem_jsonQuote_lt256 hf hc
    · exact (by decide : ∀ x ∈ (",\"timestamp\":").toList, x.toNat < 256) c hc
    · exact plain_lt256 (natDigits_plain c hc)
    · exact (by decide : ∀ x ∈ (",\"source\":").toList, x.toNat < 256) c hc
    · exact mem_jsonQuote_lt256 hs hc
    · exact (by decide : ∀ x ∈ (",\"signature\":").toList, x.toNat < 256) c hc
    · exact mem_jsonQuote_lt256 hsp hc
    · subst hc; decide

/-- Decoding a token assembled from in-range bytes unwinds the base64 layer
down to the JSON parse of those bytes. -/
theorem decodeTokenChars_minted {bytes : List Nat} (hbytes : ∀ b ∈ bytes, b < 256) :
    decodeTokenChars ((btoaSextets bytes).map b64Char ++ b64Padding bytes.length)
      = match parseMetadataJson (bytes.map Char.ofNat) with
        | none => none
        | some m => presentCheck m := by
  unfold decodeTokenChars
  rw [atob_btoa hbytes]

/-- `parseProxyUrl` on a minted worker URL whose token is slash-free
reaches the token decoder on exactly the token. -/
theorem parseProxyUrl_minted {enc : List Char}
    (hq : ∀ c ∈ enc, (!(c = '?' || c = '#')) = true)
    (hns : '/' ∉ enc) :
    parseProxyUrl (PROXY_WORKER_URL ++ "/proxy/" ++ PROXY_VERSION ++ "/" ++ String.mk enc)
      = decodeTokenChars enc := by
  unfold parseProxyUrl
  rw [pathnameOf_minted enc hq]
  dsimp only
  have hshape : (String.mk ('/' :: ("proxy/v1/").toList ++ enc)).toList
      = '/' :: ("proxy".toList ++ ('/' :: ("v1".toList ++ ('/' :: enc)))) := rfl
  rw [hshape, splitOnChar_sep_cons,
    splitOnChar_nosep_append '/' _ _ (by decide),
    splitOnChar_nosep_append '/' _ _ (by decide),
    splitOnChar_nosep '/' enc hns]
  rw [if_neg (by simp)]
  rw [if_neg (by simp [List.getD])]
  simp [List.getD]

/-- C8 — amended.  On a proxy-capable origin URL whose characters are plain
(printable Latin-1 without quote or backslash, as every handled media URL
is), and whose minted token's base64 core contains no `/` character,
`parseProxyUrl` is a left inverse of `createProxyUrl`: it returns exactly
the minted metadata, so the `original`, `filename` and `source` fields all
round-trip.  (The slash-freeness proviso is necessary: the `/`-splitting of
the pathname truncates a token containing `/`, see the counterexample.) -/
theorem C8_parse_roundtrip (url : String) (now : Nat) (fallback : String)
    (hsupp : (detectPlatform url).supportsProxy = true)
    (hplain : jsonPlainStr url = true)
    (hfplain : jsonPlainStr
      (generateFileName url (detectPlatform url).platform fallback) = true)
    (hnoslash : '/' ∉ (btoaSextets
      ((metadataJson (mintedMetadata url [] now fallback)).map Char.toNat)).map b64Char) :
    parseProxyUrl (createProxyUrl url [] now fallback)
      = some (mintedMetadata url [] now fallback) ∧
    (mintedMetadata url [] now fallback).original = url ∧
    (mintedMetadata url [] now fallback).filename
      = generateFileName url (detectPlatform url).platform fallback ∧
    (mintedMetadata url [] now fallback).source = (detectPlatform url).platform := by
  obtain ⟨hsrc_if, hsrc_plain, hsrc_ne⟩ := minted_source_facts hsupp
  have hble : (mintedMetadata url [] now fallback).backupUrls = [] := rfl
  have hsrc : (mintedMetadata url [] now fallback).source
      = (detectPlatform url).platform := hsrc_if
  have hsplain : jsonPlainStr (mintedMetadata url [] now fallback).source = true := by
    rw [hsrc]; exact hsrc_plain
  have hsg : (mintedMetadata url [] now fallback).signature
      = some (generateSignature (signatureData url
          (generateFileName url (detectPlatform url).platform fallback) now)) := rfl
  have hsigfun : ∀ s, (mintedMetadata url [] now fallback).signature = some s →
      jsonPlainStr s = true := by
    intro s hs
    rw [hsg] at hs
    obtain rfl := Option.some.inj hs
    exact generateSignature_plain _
  have hjchars : ∀ c ∈ metadataJson (mintedMetadata url [] now fallback),
      c.toNat < 256 :=
    metadataJson_lt256 hble hplain hfplain hsplain hsigfun
  have hbytes : ∀ b ∈ (metadataJson (mintedMetadata url [] now fallback)).map Char.toNat,
      b < 256 := by
    intro b hb
    obtain ⟨c, hc, rfl⟩ := List.mem_map.mp hb
    exact hjchars c hc
  have hq : ∀ c ∈ (btoaSextets
        ((metadataJson (mintedMetadata url [] now fallback)).map Char.toNat)).map b64Char
      ++ b64Padding ((metadataJson (mintedMetadata url [] now fallback)).map Char.toNat).length,
      (!(c = '?' || c = '#')) = true := by
    intro c hc
    rcases List.mem_append.mp hc with h1 | h2
    · obtain ⟨v, hv, rfl⟩ := List.mem_map.mp h1
      obtain ⟨-, hq2, hq3⟩ := b64Char_ne v (btoaSextets_lt64 hbytes v hv)
      simp [hq2, hq3]
    · rw [mem_b64Padding h2]; decide
  have hns : '/' ∉ (btoaSextets
        ((metadataJson (mintedMetadata url [] now fallback)).map Char.toNat)).map b64Char
      ++ b64Padding ((metadataJson (mintedMetadata url [] now fallback)).map Char.toNat).length := by
    intro hmem
    rcases List.mem_append.mp hmem with h1 | h2
    · exact hnoslash h1
    · exact absurd (mem_b64Padding h2) (by decide)
  have htok : createProxyUrl url [] now fallback
      = PROXY_WORKER_URL ++ "/proxy/" ++ PROXY_VERSION ++ "/"
        ++ String.mk ((btoaSextets
            ((metadataJson (mintedMetadata url [] now fallback)).map Char.toNat)).map b64Char
          ++ b64Padding ((metadataJson (mintedMetadata url [] now fallback)).map Char.toNat).length) := by
    simp only [createProxyUrl, hsupp, Bool.not_true, Bool.false_eq_true, if_false,
      btoa_eq hbytes]
  have hmapback : (((metadataJson (mintedMetadata url [] now fallback)).map
      Char.toNat).map Char.ofNat) = metadataJson (mintedMetadata url [] now fallback) := by
    rw [List.map_map]
    simp [Function.comp_def, Char.ofNat_toNat]
  have hparse : parseProxyUrl (createProxyUrl url [] now fallback)
      = some (mintedMetadata url [] now fallback) := by
    rw [htok, parseProxyUrl_minted hq hns, decodeTokenChars_minted hbytes, hmapback,
      parseMetadataJson_metadataJson hble hplain hfplain hsplain hsigfun]
    dsimp only
    unfold presentCheck
    rw [if_pos ⟨url_ne_empty_of_supportsProxy hsupp,
      by rw [hsrc]; exact hsrc_ne,
      generateFileName_ne_empty url (detectPlatform url).platform fallback⟩]
  exact ⟨hparse, rfl, rfl, hsrc⟩

set_option maxRecDepth 40000 in
/-- C8 — witness for the amended round-trip at a concrete douyin URL whose
minted token is slash-free: every hypothesis holds and parsing the minted
proxy URL returns the minted metadata. -/
theorem C8_witness :
    (detectPlatform douyinUrl).supportsProxy = true ∧
    jsonPlainStr douyinUrl = true ∧
    jsonPlainStr (generateFileName douyinUrl (detectPlatform douyinUrl).platform "r0")
      = true ∧
    '/' ∉ (btoaSextets ((metadataJson
      (mintedMetadata douyinUrl [] 1700000000000 "r0")).map Char.toNat)).map b64Char ∧
    parseProxyUrl (createProxyUrl douyinUrl [] 1700000000000 "r0")
      = some (mintedMetadata douyinUrl [] 1700000000000 "r0") :=
  ⟨by decide, by decide, by decide, by decide,
    (C8_parse_roundtrip douyinUrl 1700000000000 "r0" (by decide) (by decide)
      (by decide) (by decide)).1⟩
